import Mathlib

/-!
Verification of the asynchronous search orchestration core of the recsys
backend against its natural-language specification.

The development shallowly embeds the Python source under `backend/app`:

* `backend/app/utils/cache_utils.py`  — query canonicalization, cache-key
  builders, and the gzip+JSON payload codec.  JSON values are embedded as the
  inductive `Json` (numbers restricted to integers); the compact separators
  `(",", ":")` and `ensure_ascii=False` behaviour of `json.dumps` is embedded
  by `printJson`, and `json.loads` by the fuel-based recursive-descent parser
  `parseVal`.  The gzip+utf8 transport layer is an external library and is
  abstracted as an encoder/decoder pair.
* `backend/app/utils/payload_scrubber.py` — `scrub_payload` over an embedding
  `PyVal` of the JSON-serialisable Python values it manipulates.
* `backend/app/utils/search_jobs.py` — the job registry as a map from query
  hash to `JobRecord`, with `mark_pending` / `mark_completed` / `mark_failed` /
  `clear_job` as registry transformers taking the current wall-clock instant
  (`datetime.now`) as an explicit `Nat` argument.
* `backend/app/utils/timeline.py` — the in-memory timeline backend
  `_write_in_memory`; the `"<millis>-<seq>"` stream id is represented by the
  pair of naturals it parses to (`_parse_stream_id`), which is how the source
  itself compares stream ids.
* `backend/app/core/search_service.py` — `_store_cached_response`,
  `get_precomputed_response`, and the timeline-emission/ordering skeleton of
  `search_products`, the latter as a trace-producing function over the inputs
  that determine its control flow.
* `backend/app/api/search_endpoints.py` — `submit_search`, `get_search_result`
  and `_execute_search_job` at the same level of abstraction.

SHA-256 digests, pydantic model validation and the network cache adapters are
abstracted as function parameters; every claim quantifies over them.
-/

/-! ## Characters and whitespace (re `\s`, `str.strip`, `str.lower`) -/

/-- Python `\s` on ASCII text: space, tab, newline, carriage return, vertical
tab, form feed. -/
def isWsChar (c : Char) : Bool :=
  c.toNat = 32 || c.toNat = 9 || c.toNat = 10 || c.toNat = 13 ||
    c.toNat = 11 || c.toNat = 12

/-- Python `str.lower` restricted to ASCII letters (queries are ASCII text in
this embedding). -/
def lowerChar (c : Char) : Char :=
  if 65 ≤ c.toNat ∧ c.toNat ≤ 90 then Char.ofNat (c.toNat + 32) else c

/-- Python `str.strip`: drop trailing whitespace (via double reverse), then
leading whitespace.  `strip` removes from both ends, so the order of the two
passes is immaterial. -/
def stripChars (l : List Char) : List Char :=
  ((l.reverse.dropWhile isWsChar).reverse).dropWhile isWsChar

/-- `re.sub(r"\s+", " ", s)`: every maximal whitespace run becomes one space.
The flag records whether the previous character was part of a whitespace run
already emitted. -/
def collapseWs : Bool → List Char → List Char
  | _, [] => []
  | prevWs, c :: rest =>
    if isWsChar c then
      if prevWs then collapseWs true rest else ' ' :: collapseWs true rest
    else c :: collapseWs false rest

/-- `cache_utils.canonicalize_query`:
`_WHITESPACE_RE.sub(" ", (query or "").strip()).lower()`. -/
def canonicalize_query (q : List Char) : List Char :=
  (collapseWs false (stripChars q)).map lowerChar

/-! ## Cache-key builders (`cache_utils.py`)

`sha` abstracts `hashlib.sha256(·.encode("utf-8")).hexdigest()`. -/

/-- `cache_utils.build_precomputed_query_key`. -/
def build_precomputed_query_key (sha : List Char → String) (query : List Char) : String :=
  "guest:precomputed:query:" ++ sha (canonicalize_query query)

/-- `cache_utils.build_precomputed_payload_key`. -/
def build_precomputed_payload_key (slug : String) : String :=
  "guest:precomputed:" ++ slug

/-- `cache_utils.build_canonical_query_key`. -/
def build_canonical_query_key (sha : List Char → String) (query : List Char) : String :=
  "guest:canonical:query:" ++ sha (canonicalize_query query)

/-- `cache_utils.build_canonical_payload_key`. -/
def build_canonical_payload_key (slug : String) : String :=
  "guest:canonical:" ++ slug

/-! ## JSON values

`json.dumps` / `json.loads` work on JSON-representable structures; the mutual
inductive below embeds them (numbers as integers, dictionary fields in
insertion order). -/

mutual
inductive Json where
  | null : Json
  | bool (b : Bool) : Json
  | num (n : Int) : Json
  | str (s : List Char) : Json
  | arr (items : JsonItems) : Json
  | obj (fields : JsonFields) : Json
inductive JsonItems where
  | nil : JsonItems
  | cons (hd : Json) (tl : JsonItems) : JsonItems
inductive JsonFields where
  | nil : JsonFields
  | fcons (key : List Char) (val : Json) (tl : JsonFields) : JsonFields
end

/-! ## Printing (`json.dumps(·, separators=(",", ":"), ensure_ascii=False)`) -/

/-- Decimal digit to character. -/
def digitToChar (d : Nat) : Char :=
  ['0', '1', '2', '3', '4', '5', '6', '7', '8', '9'].getD d '0'

/-- Lowercase hexadecimal digit to character (as `"\\u%04x" % i`). -/
def hexDigitChar (d : Nat) : Char :=
  if d < 10 then digitToChar d
  else ['a', 'b', 'c', 'd', 'e', 'f'].getD (d - 10) '0'

/-- Decimal notation of a natural number, most significant digit first. -/
def printNat (n : Nat) : List Char :=
  if n = 0 then ['0'] else (Nat.digits 10 n).reverse.map digitToChar

/-- Decimal notation of an integer. -/
def printInt : Int → List Char
  | Int.ofNat m => printNat m
  | Int.negSucc m => '-' :: printNat (m + 1)

/-- The escaping of one character inside a JSON string, as Python's
`json.encoder.py_encode_basestring` (the `ensure_ascii=False` variant):
backslash, quote, the five short control escapes, `\u00XX` for the remaining
control characters, and everything else verbatim. -/
def escapeChar (c : Char) : List Char :=
  if c = '\\' then ['\\', '\\']
  else if c = '"' then ['\\', '"']
  else if c = '\x08' then ['\\', 'b']
  else if c = '\t' then ['\\', 't']
  else if c = '\n' then ['\\', 'n']
  else if c = '\x0c' then ['\\', 'f']
  else if c = '\r' then ['\\', 'r']
  else if c.toNat < 32 then
    ['\\', 'u', '0', '0', hexDigitChar (c.toNat / 16), hexDigitChar (c.toNat % 16)]
  else [c]

/-- Escape every character of a string body. -/
def escapeString : List Char → List Char
  | [] => []
  | c :: rest => escapeChar c ++ escapeString rest

/-- A JSON string literal. -/
def printString (s : List Char) : List Char :=
  '"' :: escapeString s ++ ['"']

mutual
/-- Compact JSON serialization, mirroring
`json.dumps(payload, separators=(",", ":"), ensure_ascii=False)`. -/
def printJson : Json → List Char
  | .null => ['n', 'u', 'l', 'l']
  | .bool false => ['f', 'a', 'l', 's', 'e']
  | .bool true => ['t', 'r', 'u', 'e']
  | .num n => printInt n
  | .str s => printString s
  | .arr items => '[' :: printItems items ++ [']']
  | .obj fields => '\x7b' :: printFields fields ++ ['\x7d']
/-- Array elements, comma separated. -/
def printItems : JsonItems → List Char
  | .nil => []
  | .cons hd tl => printJson hd ++ printItemsTail tl
/-- Array elements after the first. -/
def printItemsTail : JsonItems → List Char
  | .nil => []
  | .cons hd tl => ',' :: printJson hd ++ printItemsTail tl
/-- Object fields, comma separated. -/
def printFields : JsonFields → List Char
  | .nil => []
  | .fcons k v tl => printString k ++ ':' :: printJson v ++ printFieldsTail tl
/-- Object fields after the first. -/
def printFieldsTail : JsonFields → List Char
  | .nil => []
  | .fcons k v tl => ',' :: printString k ++ ':' :: printJson v ++ printFieldsTail tl
end

/-! ## Parsing (`json.loads`) -/

/-- JSON insignificant whitespace: space, tab, newline, carriage return. -/
def isJsonWs (c : Char) : Bool :=
  c.toNat = 32 || c.toNat = 9 || c.toNat = 10 || c.toNat = 13

/-- Skip insignificant whitespace. -/
def skipWs (l : List Char) : List Char := l.dropWhile isJsonWs

/-- Decimal digit test. -/
def isDigitChar (c : Char) : Bool := 48 ≤ c.toNat && c.toNat ≤ 57

/-- Character to decimal digit value. -/
def charToDigit (c : Char) : Nat := c.toNat - 48

/-- Consume a run of decimal digits, accumulating their value. -/
def parseDigitsAux : List Char → Nat → Nat × List Char
  | [], acc => (acc, [])
  | c :: rest, acc =>
    if isDigitChar c then parseDigitsAux rest (acc * 10 + charToDigit c)
    else (acc, c :: rest)

/-- One JSON natural-number token: `0`, or a nonzero digit followed by digits
(leading zeros are rejected, as by Python's `NUMBER_RE`). -/
def parseNatToken : List Char → Option (Nat × List Char)
  | [] => none
  | c :: rest =>
    if c = '0' then some (0, rest)
    else if isDigitChar c then some (parseDigitsAux rest (charToDigit c))
    else none

/-- Hexadecimal digit value. -/
def hexDigitVal (c : Char) : Option Nat :=
  if 48 ≤ c.toNat ∧ c.toNat ≤ 57 then some (c.toNat - 48)
  else if 97 ≤ c.toNat ∧ c.toNat ≤ 102 then some (c.toNat - 87)
  else if 65 ≤ c.toNat ∧ c.toNat ≤ 70 then some (c.toNat - 55)
  else none

/-- The character denoted by a two-character escape sequence. -/
def unescapeChar (c : Char) : Option Char :=
  if c = '"' then some '"'
  else if c = '\\' then some '\\'
  else if c = '/' then some '/'
  else if c = 'b' then some '\x08'
  else if c = 'f' then some '\x0c'
  else if c = 'n' then some '\n'
  else if c = 'r' then some '\r'
  else if c = 't' then some '\t'
  else none

/-- Parse a JSON string body after the opening quote, in strict mode (raw
control characters are rejected, escapes decoded). -/
def parseStringBody : List Char → Option (List Char × List Char)
  | [] => none
  | c :: rest =>
    if c = '"' then some ([], rest)
    else if c = '\\' then
      match rest with
      | 'u' :: h1 :: h2 :: h3 :: h4 :: rest2 =>
        (hexDigitVal h1).bind fun a =>
        (hexDigitVal h2).bind fun b =>
        (hexDigitVal h3).bind fun c2 =>
        (hexDigitVal h4).bind fun d =>
        (parseStringBody rest2).map fun p =>
          (Char.ofNat (4096 * a + 256 * b + 16 * c2 + d) :: p.1, p.2)
      | e :: rest2 =>
        (unescapeChar e).bind fun ch =>
        (parseStringBody rest2).map fun p => (ch :: p.1, p.2)
      | [] => none
    else if c.toNat < 32 then none
    else (parseStringBody rest).map fun p => (c :: p.1, p.2)

mutual
/-- Recursive-descent JSON value parser with explicit fuel (the source relies
on Python's recursion limit instead). -/
def parseVal : Nat → List Char → Option (Json × List Char)
  | 0, _ => none
  | fuel + 1, input =>
    match skipWs input with
    | [] => none
    | c :: rest =>
      if c = '"' then (parseStringBody rest).map fun p => (Json.str p.1, p.2)
      else if c = '\x7b' then
        (parseFields fuel rest).map fun p => (Json.obj p.1, p.2)
      else if c = '[' then
        (parseItems fuel rest).map fun p => (Json.arr p.1, p.2)
      else if c = 't' then
        match rest with
        | 'r' :: 'u' :: 'e' :: r => some (Json.bool true, r)
        | _ => none
      else if c = 'f' then
        match rest with
        | 'a' :: 'l' :: 's' :: 'e' :: r => some (Json.bool false, r)
        | _ => none
      else if c = 'n' then
        match rest with
        | 'u' :: 'l' :: 'l' :: r => some (Json.null, r)
        | _ => none
      else if c = '-' then
        (parseNatToken rest).map fun p => (Json.num (-(p.1 : Int)), p.2)
      else (parseNatToken (c :: rest)).map fun p => (Json.num (p.1 : Int), p.2)
/-- Array contents after `[`: either `]` or a first element and a tail. -/
def parseItems : Nat → List Char → Option (JsonItems × List Char)
  | 0, _ => none
  | fuel + 1, input =>
    match skipWs input with
    | [] => none
    | c :: r =>
      if c = ']' then some (.nil, r)
      else
        (parseVal fuel (c :: r)).bind fun p =>
        (parseItemsTail fuel p.2).map fun q => (JsonItems.cons p.1 q.1, q.2)
/-- Array contents after an element: `,` and another element, or `]`. -/
def parseItemsTail : Nat → List Char → Option (JsonItems × List Char)
  | 0, _ => none
  | fuel + 1, input =>
    match skipWs input with
    | [] => none
    | c :: r =>
      if c = ']' then some (.nil, r)
      else if c = ',' then
        (parseVal fuel r).bind fun p =>
        (parseItemsTail fuel p.2).map fun q => (JsonItems.cons p.1 q.1, q.2)
      else none
/-- Object contents after the opening brace: either the closing brace or a
first `"key": value` pair and a tail. -/
def parseFields : Nat → List Char → Option (JsonFields × List Char)
  | 0, _ => none
  | fuel + 1, input =>
    match skipWs input with
    | [] => none
    | c :: r =>
      if c = '\x7d' then some (.nil, r)
      else if c = '"' then
        (parseStringBody r).bind fun pk =>
        match skipWs pk.2 with
        | [] => none
        | c2 :: r2 =>
          if c2 = ':' then
            (parseVal fuel r2).bind fun pv =>
            (parseFieldsTail fuel pv.2).map fun q =>
              (JsonFields.fcons pk.1 pv.1 q.1, q.2)
          else none
      else none
/-- Object contents after a pair: `,` and another pair, or the closing
brace. -/
def parseFieldsTail : Nat → List Char → Option (JsonFields × List Char)
  | 0, _ => none
  | fuel + 1, input =>
    match skipWs input with
    | [] => none
    | c :: r =>
      if c = '\x7d' then some (.nil, r)
      else if c = ',' then
        match skipWs r with
        | [] => none
        | c2 :: r2 =>
          if c2 = '"' then
            (parseStringBody r2).bind fun pk =>
            match skipWs pk.2 with
            | [] => none
            | c3 :: r3 =>
              if c3 = ':' then
                (parseVal fuel r3).bind fun pv =>
                (parseFieldsTail fuel pv.2).map fun q =>
                  (JsonFields.fcons pk.1 pv.1 q.1, q.2)
              else none
          else none
      else none
end

/-- `json.loads`: parse one value and require only whitespace after it.  The
fuel `length + 1` dominates the recursion depth of any parse that can
succeed. -/
def parseJson (l : List Char) : Option Json :=
  match parseVal (l.length + 1) l with
  | some (v, rest) => if skipWs rest = [] then some v else none
  | none => none

/-! ## Payload codec (`cache_utils.serialize_payload` / `deserialize_payload`)

`enc` abstracts `gzip.compress ∘ (·.encode("utf-8"))` and `dec` abstracts
`(·.decode("utf-8")) ∘ gzip.decompress` (returning `none` where the library
raises); both are external lossless transport layers. -/

/-- `cache_utils.serialize_payload`: compact JSON dump then transport
encoding. -/
def serialize_payload {κ : Type} (enc : List Char → κ) (payload : Json) : κ :=
  enc (printJson payload)

/-- `cache_utils.deserialize_payload`: transport decoding then `json.loads`. -/
def deserialize_payload {κ : Type} (dec : κ → Option (List Char)) (blob : κ) :
    Option Json :=
  (dec blob).bind parseJson

/-! ## Size measures used as parser fuel bounds -/

mutual
/-- Structural size of a JSON value (recursion-depth bound for the parser). -/
def sizeJson : Json → Nat
  | .null => 0
  | .bool _ => 0
  | .num _ => 0
  | .str _ => 0
  | .arr items => 1 + sizeItems items
  | .obj fields => 1 + sizeFields fields
/-- Size of array items. -/
def sizeItems : JsonItems → Nat
  | .nil => 0
  | .cons hd tl => 1 + sizeJson hd + sizeItems tl
/-- Size of object fields. -/
def sizeFields : JsonFields → Nat
  | .nil => 0
  | .fcons _ v tl => 1 + sizeJson v + sizeFields tl
end

/-! ## Payload scrubber (`payload_scrubber.py`)

`PyVal` embeds the JSON-serialisable Python values `scrub_payload` traverses:
dict-like mappings, lists, tuples, sets (set construction order and
deduplication are abstracted: a `set` value carries its iteration order),
bytes (represented by their UTF-8 decode-with-replacement), and scalars. -/

mutual
inductive PyVal where
  | pyNone : PyVal
  | bool (b : Bool) : PyVal
  | int (n : Int) : PyVal
  | str (s : List Char) : PyVal
  | bytes (utf8Text : List Char) : PyVal
  | list (xs : PyItems) : PyVal
  | tuple (xs : PyItems) : PyVal
  | set (xs : PyItems) : PyVal
  | dict (fields : PyDictFields) : PyVal
inductive PyItems where
  | nil : PyItems
  | cons (hd : PyVal) (tl : PyItems) : PyItems
inductive PyDictFields where
  | nil : PyDictFields
  | fcons (key : List Char) (val : PyVal) (tl : PyDictFields) : PyDictFields
end

/-- `payload_scrubber.ScrubberSettings` (field sets as lists). -/
structure ScrubberSettings where
  redact_fields : List (List Char)
  truncate_fields : List (List Char)
  passthrough_fields : List (List Char)
  max_truncate_length : Nat
  mask : List Char
  hash_mask : Bool
  debug_truncation_enabled : Bool

/-- `ScrubberSettings.normalized`: lower-case every configured field name. -/
def normalizedSettings (st : ScrubberSettings) : ScrubberSettings :=
  { st with
    redact_fields := st.redact_fields.map (·.map lowerChar)
    truncate_fields := st.truncate_fields.map (·.map lowerChar)
    passthrough_fields := st.passthrough_fields.map (·.map lowerChar) }

/-- `payload_scrubber.truncate_text` (non-positive limits yield the empty
string; the limit is a `Nat` here). -/
def truncate_text (text : List Char) (max_length : Nat) : List Char :=
  if max_length = 0 then []
  else if text.length ≤ max_length then text
  else text.take max_length ++ ['…']

/-- The scrubbed replacement for a redacted value: `_hash_value` (abstracted
by `hv`, standing for `"[hash:" + sha256(repr(value))[:16] + "]"`) when
`hash_mask`, else the literal mask. -/
def maskValue (hv : PyVal → List Char) (st : ScrubberSettings) (v : PyVal) : List Char :=
  if st.hash_mask then hv v else st.mask

mutual
/-- The inner `_scrub` closure of `payload_scrubber.scrub_payload`, with the
normalized settings and the resolved `allow_truncation` flag in scope. -/
def scrubVal (hv : PyVal → List Char) (st : ScrubberSettings) (allowTrunc : Bool) :
    PyVal → PyVal
  | .dict fields => .dict (scrubDict hv st allowTrunc fields)
  | .list xs => .list (scrubItems hv st allowTrunc xs)
  | .tuple xs => .tuple (scrubItems hv st allowTrunc xs)
  | .set xs => .set (scrubItems hv st allowTrunc xs)
  | .bytes b => .str (truncate_text b st.max_truncate_length)
  | .pyNone => .pyNone
  | .bool b => .bool b
  | .int n => .int n
  | .str s => .str s
/-- Element-wise scrubbing of a sequence. -/
def scrubItems (hv : PyVal → List Char) (st : ScrubberSettings) (allowTrunc : Bool) :
    PyItems → PyItems
  | .nil => .nil
  | .cons hd tl => .cons (scrubVal hv st allowTrunc hd) (scrubItems hv st allowTrunc tl)
/-- Field-wise scrubbing of a mapping: passthrough recurses, redact masks,
truncate emits a capped string only for string values under the debug flag and
masks otherwise, and unknown keys recurse. -/
def scrubDict (hv : PyVal → List Char) (st : ScrubberSettings) (allowTrunc : Bool) :
    PyDictFields → PyDictFields
  | .nil => .nil
  | .fcons k v tl =>
    let lk := k.map lowerChar
    if lk ∈ st.passthrough_fields then
      .fcons k (scrubVal hv st allowTrunc v) (scrubDict hv st allowTrunc tl)
    else if lk ∈ st.redact_fields then
      .fcons k (.str (maskValue hv st v)) (scrubDict hv st allowTrunc tl)
    else if lk ∈ st.truncate_fields then
      (match v, allowTrunc with
       | .str s, true =>
         .fcons k (.str (truncate_text s st.max_truncate_length)) (scrubDict hv st allowTrunc tl)
       | _, _ => .fcons k (.str (maskValue hv st v)) (scrubDict hv st allowTrunc tl))
    else .fcons k (scrubVal hv st allowTrunc v) (scrubDict hv st allowTrunc tl)
end

/-- The `allow_truncation` flag of `scrub_payload`: the override when given,
else the settings flag. -/
def resolvedTruncFlag (settings : ScrubberSettings)
    (debug_truncation_override : Option Bool) : Bool :=
  match debug_truncation_override with
  | Option.none => settings.debug_truncation_enabled
  | Option.some b => b

/-- `payload_scrubber.scrub_payload`. -/
def scrub_payload (hv : PyVal → List Char) (settings : ScrubberSettings)
    (debug_truncation_override : Option Bool) (payload : PyVal) : PyVal :=
  let norm := normalizedSettings settings
  scrubVal hv norm (resolvedTruncFlag norm debug_truncation_override) payload

/-- `payload_scrubber.DEFAULT_TIMELINE_SCRUBBER`. -/
def DEFAULT_TIMELINE_SCRUBBER : ScrubberSettings :=
  { redact_fields := ["email".data, "user_id".data, "access_token".data, "refresh_token".data]
    truncate_fields := ["prompt".data, "response_fragment".data, "llm_input".data, "llm_output".data]
    passthrough_fields := ["query".data, "asin".data, "product_id".data, "score".data, "step".data]
    max_truncate_length := 512
    mask := "[scrubbed]".data
    hash_mask := true
    debug_truncation_enabled := false }

/-! ## In-memory timeline backend (`timeline.py`)

An event's `stream_id` string `"<millis>-<seq>"` is represented by the
`(millis, sequence)` pair `_parse_stream_id` recovers from it; the source
compares stream ids through exactly that pair. -/

/-- One stored timeline event (identity and ordering fields; the scrubbed
payload and ISO timestamp are carried by the event but irrelevant here). -/
structure TimelineEvent where
  event_id : String
  query_hash : String
  step : String
  millis : Nat
  sequence : Nat
deriving DecidableEq

/-- `timeline._write_in_memory`: append to the per-hash buffer, assigning
`sequence = len(events) + 1` and `stream_id = "<now_millis>-<sequence>"`. -/
def _write_in_memory (tls : String → List TimelineEvent)
    (event_id query_hash step : String) (now_millis : Nat) :
    (String → List TimelineEvent) × TimelineEvent :=
  let events := tls query_hash
  let sequence := events.length + 1
  let ev : TimelineEvent :=
    { event_id := event_id, query_hash := query_hash, step := step,
      millis := now_millis, sequence := sequence }
  (fun h => if h = query_hash then events ++ [ev] else tls h, ev)

/-- One call to the in-memory publish path, with its wall-clock millis. -/
structure PublishCall where
  event_id : String
  query_hash : String
  step : String
  millis : Nat

/-- Apply a chronological list of publishes to the in-memory store. -/
def applyPublishes : List PublishCall → (String → List TimelineEvent) →
    (String → List TimelineEvent)
  | [], tls => tls
  | p :: rest, tls =>
    applyPublishes rest (_write_in_memory tls p.event_id p.query_hash p.step p.millis).1

/-- The empty in-memory timeline store. -/
def emptyTimelines : String → List TimelineEvent := fun _ => []

/-- Comparison of stream ids by their `(millis, seq)` parse
(`timeline._parse_stream_id` ordering). -/
def streamIdLe (a b : Nat × Nat) : Prop :=
  a.1 < b.1 ∨ (a.1 = b.1 ∧ a.2 ≤ b.2)

/-! ## Job registry (`search_jobs.py`)

The registry is the module-level `_jobs` mapping; each mutator runs under the
registry lock and reads `datetime.now` once, modelled by the explicit `now`
argument.  Job results are abstract (`ρ`); metadata dictionaries are
JSON-valued association lists. -/

/-- Job states. -/
inductive JobStatus where
  | pending : JobStatus
  | completed : JobStatus
  | failed : JobStatus
deriving DecidableEq

/-- `search_jobs.JobRecord`. -/
structure JobRecord (ρ : Type) where
  query : String
  status : JobStatus
  created_at : Nat
  updated_at : Nat
  result : Option ρ
  error : Option String
  metadata : List (String × Json)

/-- The registry: `_jobs`. -/
def JobRegistry (ρ : Type) : Type := String → Option (JobRecord ρ)

/-- The registry before any operation. -/
def emptyRegistry {ρ : Type} : JobRegistry ρ := fun _ => none

/-- `search_jobs.mark_pending`: create-or-reset; an existing record keeps its
`created_at` and (for a falsy query argument) its query, clears result and
error, and merges metadata. -/
def mark_pending {ρ : Type} (reg : JobRegistry ρ) (now : Nat)
    (query_hash query : String) (metadata : List (String × Json)) : JobRegistry ρ :=
  let record : JobRecord ρ :=
    match reg query_hash with
    | none =>
      { query := query
        status := .pending
        created_at := now
        updated_at := now
        result := none
        error := none
        metadata := metadata }
    | some r =>
      { query := if query = "" then r.query else query
        status := .pending
        created_at := r.created_at
        updated_at := now
        result := none
        error := none
        metadata := r.metadata ++ metadata }
  fun h => if h = query_hash then some record else reg h

/-- `search_jobs.mark_completed`: set status completed with the (non-null)
result, clear the error; creates the entry when missing. -/
def mark_completed {ρ : Type} (reg : JobRegistry ρ) (now : Nat)
    (query_hash : String) (result : ρ) : JobRegistry ρ :=
  let record : JobRecord ρ :=
    match reg query_hash with
    | none =>
      { query := ""
        status := .completed
        created_at := now
        updated_at := now
        result := some result
        error := none
        metadata := [] }
    | some r =>
      { r with
        status := .completed
        result := some result
        error := none
        updated_at := now }
  fun h => if h = query_hash then some record else reg h

/-- `search_jobs.mark_failed`: set status failed with the error string; an
existing result is left in place. -/
def mark_failed {ρ : Type} (reg : JobRegistry ρ) (now : Nat)
    (query_hash error : String) : JobRegistry ρ :=
  let record : JobRecord ρ :=
    match reg query_hash with
    | none =>
      { query := ""
        status := .failed
        created_at := now
        updated_at := now
        result := none
        error := some error
        metadata := [] }
    | some r =>
      { r with
        status := .failed
        error := some error
        updated_at := now }
  fun h => if h = query_hash then some record else reg h

/-- `search_jobs.clear_job`. -/
def clear_job {ρ : Type} (reg : JobRegistry ρ) (query_hash : String) : JobRegistry ρ :=
  fun h => if h = query_hash then none else reg h

/-- A registry mutation (the hash it targets plus its arguments). -/
inductive JobOp (ρ : Type) where
  | opPending (query_hash query : String) (metadata : List (String × Json)) : JobOp ρ
  | opCompleted (query_hash : String) (result : ρ) : JobOp ρ
  | opFailed (query_hash error : String) : JobOp ρ
  | opClear (query_hash : String) : JobOp ρ

/-- Apply one timed operation. -/
def applyJobOp {ρ : Type} (reg : JobRegistry ρ) (now : Nat) : JobOp ρ → JobRegistry ρ
  | .opPending query_hash query metadata => mark_pending reg now query_hash query metadata
  | .opCompleted query_hash result => mark_completed reg now query_hash result
  | .opFailed query_hash error => mark_failed reg now query_hash error
  | .opClear query_hash => clear_job reg query_hash

/-- Apply a chronological sequence of timed operations. -/
def applyJobOps {ρ : Type} : List (Nat × JobOp ρ) → JobRegistry ρ → JobRegistry ρ
  | [], reg => reg
  | (now, op) :: rest, reg => applyJobOps rest (applyJobOp reg now op)

/-! ## Per-request response cache store (`SearchService._store_cached_response`)

The cache adapter is modelled by its in-memory contract: a map from key to
`(payload bytes, ttl)`.  `enc` abstracts the utf-8 + gzip encoding to bytes
(`List Nat`), so the size guard compares the same length the source
compares.  `self.cache` is `none` when caching is disabled. -/

/-- A cache adapter state: stored payload and ttl per key. -/
def CacheState : Type := String → Option (List Nat × Nat)

/-- `SearchService._store_cached_response`: serialize, refuse to write when
the blob exceeds `CACHE_MAX_PAYLOAD_BYTES`, else write with the ttl.  Returns
the (possibly updated) adapter state and the stored flag. -/
def _store_cached_response (enc : List Char → List Nat) (max_payload_bytes : Nat)
    (cache : Option CacheState) (cache_key : String) (response : Json)
    (ttl_seconds : Nat) : Option CacheState × Bool :=
  match cache with
  | none => (none, false)
  | some st =>
    let blob := serialize_payload enc response
    if max_payload_bytes < blob.length then (some st, false)
    else (some (fun k => if k = cache_key then some (blob, ttl_seconds) else st k), true)

/-! ## Precomputed/canonical lookup (`SearchService.get_precomputed_response`)

`store` abstracts `self.cache.get` after the fail-open policy (an adapter
error under `CACHE_FAIL_OPEN=True`, the default, reads as `none`); `decSlug`
abstracts `blob.decode("utf-8").strip()` (`none` on a decode failure, which
the canonical branch turns into a miss under fail-open); `decResp` abstracts
`deserialize_payload` plus `SearchResponse(**data)` validation (`none` on
failure under fail-open). -/

/-- `SearchService.get_precomputed_response` with `CACHE_FAIL_OPEN=True`:
resolve the canonical tier, and wherever it yields nothing fall through to
the precomputed section of the function body. -/
def get_precomputed_response {κ ρ : Type} (sha : List Char → String)
    (decSlug : κ → Option String) (decResp : κ → Option ρ)
    (store : String → Option κ) (query : List Char) : Option ρ :=
  let canonical_query := canonicalize_query query
  let canonical_slug_key := build_canonical_query_key sha canonical_query
  let precomputedSection : Option ρ :=
    let slug_key := build_precomputed_query_key sha query
    match store slug_key with
    | none => none
    | some slug_blob =>
      match decSlug slug_blob with
      | none => none
      | some slug =>
        if slug = "" then none
        else
          match store (build_precomputed_payload_key slug) with
          | none => none
          | some payload_blob => decResp payload_blob
  match store canonical_slug_key with
  | none => precomputedSection
  | some canonical_slug_blob =>
    match decSlug canonical_slug_blob with
    | none => precomputedSection
    | some canonical_slug =>
      if canonical_slug = "" then precomputedSection
      else
        match store (build_canonical_payload_key canonical_slug) with
        | none => precomputedSection
        | some canonical_payload_blob =>
          match decResp canonical_payload_blob with
          | none => precomputedSection
          | some canonical_response => some canonical_response

/-- Modelled from the spec's words (§4.6 step 1): the canonical lookup chain,
`guest:canonical:query:<sha256(canonical)>` → slug → `guest:canonical:<slug>`
→ deserialize, succeeding only when every step succeeds. -/
def canonicalLookupChain {κ ρ : Type} (sha : List Char → String)
    (decSlug : κ → Option String) (decResp : κ → Option ρ)
    (store : String → Option κ) (query : List Char) : Option ρ :=
  (store ("guest:canonical:query:" ++ sha (canonicalize_query query))).bind fun blob =>
    (decSlug blob).bind fun slug =>
      if slug = "" then none
      else (store ("guest:canonical:" ++ slug)).bind decResp

/-- Modelled from the spec's words (§4.6 step 2): the precomputed lookup
chain, `guest:precomputed:query:<sha256(canonical)>` → slug →
`guest:precomputed:<slug>` → deserialize. -/
def precomputedLookupChain {κ ρ : Type} (sha : List Char → String)
    (decSlug : κ → Option String) (decResp : κ → Option ρ)
    (store : String → Option κ) (query : List Char) : Option ρ :=
  (store ("guest:precomputed:query:" ++ sha (canonicalize_query query))).bind fun blob =>
    (decSlug blob).bind fun slug =>
      if slug = "" then none
      else (store ("guest:precomputed:" ++ slug)).bind decResp

/-! ## Orchestrator timeline protocol (`SearchService.search_products` and
`search_endpoints._execute_search_job`)

The orchestrator is embedded as a trace-producing function over the inputs
that determine its control flow: the cache read outcome, the engine and
analysis outcomes (black-box awaitables, each with the steps it emits through
the timeline callback), and the store outcome.  A trace records timeline
publish attempts (absent when the hash is falsy, as `_emit_timeline_event`
returns early), before-completion hook invocations, and Job Registry
writes. -/

/-- One observable action of the orchestrator. -/
inductive TAct where
  | publish (query_hash : String) (step : String) : TAct
  | runHook : TAct
  | markCompleted : TAct
  | markFailed : TAct
deriving DecidableEq

/-- `SearchService._emit_timeline_event`: no-op for a falsy hash; otherwise a
publish attempt whose failure is swallowed (the publish outcome does not flow
anywhere). -/
def emitActs (query_hash : Option String) (step : String) : List TAct :=
  match query_hash with
  | none => []
  | some h => if h = "" then [] else [TAct.publish h step]

/-- Emissions forwarded from a collaborator's `timeline_emit` callback. -/
def emitAllActs (query_hash : Option String) (steps : List String) : List TAct :=
  (steps.map (emitActs query_hash)).flatten

/-- The trace of an optional before-completion hook: invoking it plus the
actions it performs. -/
def hookActs : Option (List TAct) → List TAct
  | none => []
  | some acts => TAct.runHook :: acts

/-- The inputs deciding one `search_products` run: the hash (None when the
caller supplies none), the cache configuration and read outcome, the engine
and analysis outcomes with their callback emissions, and the store result.
`α` is the `SearchResponse` type, `β` the engine's result-list type. -/
structure SearchRunParams (α β : Type) where
  query_hash : Option String
  cache_enabled : Bool
  bypass_cache : Bool
  cached : Option α
  engineEmits : List String
  engineOutcome : Except String β
  ragEmits : List String
  ragOutcome : Except String α
  storeOk : Bool
  cache_key : String

/-- `SearchService.search_products` as a trace/outcome function: cache-hit
event, short-circuit on a hit (hook then `response.completed`), else engine,
candidates, pipeline, optional `response.cached`, hook, and
`response.completed`; engine or pipeline failure re-raises after the
emissions made so far. -/
def search_products {α β : Type} (p : SearchRunParams α β)
    (on_before_response_completed : Option (List TAct))
    (emit_response_completed : Bool) : List TAct × Except String α :=
  let cacheRead := if p.cache_enabled && !p.bypass_cache then p.cached else none
  let cache_step := if cacheRead.isSome then "search.cache.hit" else "search.cache.miss"
  let e1 := emitActs p.query_hash cache_step
  match cacheRead with
  | some cachedResp =>
    (e1 ++ hookActs on_before_response_completed ++
       (if emit_response_completed then emitActs p.query_hash "response.completed" else []),
     .ok cachedResp)
  | none =>
    let e2 := emitActs p.query_hash "search.engine.started"
    match p.engineOutcome with
    | .error msg => (e1 ++ e2 ++ emitAllActs p.query_hash p.engineEmits, .error msg)
    | .ok _ =>
      let e3 := emitAllActs p.query_hash p.engineEmits ++
        emitActs p.query_hash "search.engine.candidates" ++
        emitActs p.query_hash "rag.pipeline.started"
      match p.ragOutcome with
      | .error msg => (e1 ++ e2 ++ e3 ++ emitAllActs p.query_hash p.ragEmits, .error msg)
      | .ok response =>
        let e4 := emitAllActs p.query_hash p.ragEmits ++
          emitActs p.query_hash "rag.pipeline.completed"
        let e5 := if p.storeOk then emitActs p.query_hash "response.cached" else []
        (e1 ++ e2 ++ e3 ++ e4 ++ e5 ++ hookActs on_before_response_completed ++
           (if emit_response_completed then emitActs p.query_hash "response.completed" else []),
         .ok response)

/-- `search_endpoints._execute_search_job`: serve a precomputed/canonical hit
by marking the job completed between `response.cached` and
`response.completed`; otherwise run `search_products` with the `finalize`
hook (which marks the job completed) and mark the job failed on any
exception. -/
def _execute_search_job {α β : Type} (p : SearchRunParams α β)
    (precomputed : Option α) : List TAct :=
  match precomputed, p.bypass_cache with
  | some _, false =>
    emitActs p.query_hash "response.cached" ++ [TAct.markCompleted] ++
      emitActs p.query_hash "response.completed"
  | _, _ =>
    let r := search_products p (some [TAct.markCompleted]) true
    match r.2 with
    | .ok _ => r.1
    | .error _ => r.1 ++ [TAct.markFailed]

/-- Left-to-right checker: every `response.completed` publish is strictly
preceded by a Job Registry completed-write.  The flag records whether a
`markCompleted` has already occurred. -/
def marksBeforeCompleted : List TAct → Bool → Bool
  | [], _ => true
  | TAct.markCompleted :: tl, _ => marksBeforeCompleted tl true
  | TAct.publish _ step :: tl, seen =>
    (step != "response.completed" || seen) && marksBeforeCompleted tl seen
  | _ :: tl, seen => marksBeforeCompleted tl seen

/-! ## Submission endpoint (`search_endpoints.submit_search`) -/

/-- `schemas.search.SearchRequest` (validated body). -/
structure SearchRequestPayload where
  query : String
  query_hash : Option String
  products_k : Nat
  reviews_per_product : Nat
  bypass_cache : Bool

/-- The authenticated caller (`AuthContext`): `subject` is `""` where the
source has a falsy/absent subject. -/
structure AuthContext where
  subject : String
  role : String

/-- `cache_utils.build_query_fingerprint` at the endpoints' identity extra
(`{"guest": is_guest}` plus `"subject"` when truthy): the key-sorted compact
JSON dump; `"guest" < "productsK" < "query" < "reviewsPerProduct" <
"subject"` is the sorted key order. -/
def build_query_fingerprint (query : String) (products_k reviews_per_product : Nat)
    (guest : Bool) (subject : Option String) : List Char :=
  printJson (Json.obj (
    .fcons "guest".data (Json.bool guest) (
    .fcons "productsK".data (Json.num products_k) (
    .fcons "query".data (Json.str (canonicalize_query query.data)) (
    .fcons "reviewsPerProduct".data (Json.num reviews_per_product) (
    match subject with
    | none => .nil
    | some s => .fcons "subject".data (Json.str s.data) .nil))))))

/-- `cache_utils.build_query_hash` at the endpoints' identity extra. -/
def build_query_hash (sha : List Char → String) (query : String)
    (products_k reviews_per_product : Nat) (guest : Bool)
    (subject : Option String) : String :=
  sha (build_query_fingerprint query products_k reviews_per_product guest subject)

/-- The server state `submit_search` can mutate: the job registry, the
timeline buffers, and the scheduled background tasks (by hash). -/
structure ServerState (ρ : Type) where
  jobs : JobRegistry ρ
  timelines : String → List TimelineEvent
  tasks : List String

/-- The visible outcome of `POST /search`: an `HTTPException` status or a 202
acceptance carrying the hash. -/
inductive SubmitOutcome where
  | clientError (statusCode : Nat) : SubmitOutcome
  | accepted (query_hash : String) : SubmitOutcome
deriving DecidableEq

/-- `search_endpoints.submit_search`: guest admission, fingerprint check
(400 on a truthy mismatching `query_hash`), then mark pending, clear the
timeline, and schedule `_execute_search_job`. -/
def submit_search {ρ : Type} (sha : List Char → String)
    (enable_guest_hashed_queries : Bool) (payload : SearchRequestPayload)
    (auth : AuthContext) (now : Nat) (st : ServerState ρ) :
    SubmitOutcome × ServerState ρ :=
  let is_guest := auth.role.data.map lowerChar = "guest".data
  if is_guest ∧ ¬enable_guest_hashed_queries then (.clientError 403, st)
  else
    let subject := if auth.subject = "" then none else some auth.subject
    let computed_hash := build_query_hash sha payload.query payload.products_k
      payload.reviews_per_product is_guest subject
    let proceed : String → SubmitOutcome × ServerState ρ := fun query_hash =>
      let metadata : List (String × Json) :=
        [("products_k", Json.num payload.products_k),
         ("reviews_per_product", Json.num payload.reviews_per_product),
         ("guest", Json.bool is_guest),
         ("subject", match subject with
           | none => Json.null
           | some s => Json.str s.data)]
      let jobs' := mark_pending st.jobs now query_hash payload.query metadata
      let timelines' := fun h => if h = query_hash then [] else st.timelines h
      (.accepted query_hash,
       { jobs := jobs', timelines := timelines', tasks := st.tasks ++ [query_hash] })
    match payload.query_hash with
    | none => proceed computed_hash
    | some qh =>
      if qh ≠ "" ∧ qh ≠ computed_hash then (.clientError 400, st)
      else proceed (if qh = "" then computed_hash else qh)

/-! ## Result endpoint (`search_endpoints.get_search_result`) -/

/-- The visible outcome of `GET /search/result/{hash}`. -/
inductive ResultResponse (α : Type) where
  | notFound : ResultResponse α
  | pending : ResultResponse α
  | failed (error : Option String) : ResultResponse α
  | completed (result : α) : ResultResponse α
  | unavailable : ResultResponse α

/-- The HTTP status code each outcome is served with. -/
def resultStatusCode {α : Type} : ResultResponse α → Nat
  | .notFound => 404
  | .pending => 202
  | .failed _ => 200
  | .completed _ => 200
  | .unavailable => 500

/-- `search_endpoints.get_search_result`: 404 for an unknown hash, 202 while
pending, the stored error at 200 when failed; when completed, validate the
stored result (`validate` abstracts `SearchResponse(**payload)`, `truthy` the
`or {}` emptiness test), fall back to `_load_cached_response` (`load_cached`,
applied to the job's query and metadata), and answer 500 `"Result
unavailable"` only when both are absent. -/
def get_search_result {ρ α : Type} (validate : ρ → Option α) (truthy : ρ → Bool)
    (load_cached : String → List (String × Json) → Option α)
    (job : Option (JobRecord ρ)) : ResultResponse α :=
  match job with
  | none => .notFound
  | some j =>
    match j.status with
    | .pending => .pending
    | .failed => .failed j.error
    | .completed =>
      let validated : Option α :=
        match j.result with
        | some p => if truthy p then validate p else none
        | none => none
      match validated with
      | some r => .completed r
      | none =>
        match load_cached j.query j.metadata with
        | some r => .completed r
        | none => .unavailable

/-! ## Invariant predicates referenced by the claims -/

/-- The job-record invariant of the spec: a completed record carries a result
and no error, a failed record carries an error, and `updated_at` never
precedes `created_at`. -/
def jobRecordInv {ρ : Type} (r : JobRecord ρ) : Prop :=
  (r.status = .completed → r.result ≠ none ∧ r.error = none) ∧
  (r.status = .failed → r.error ≠ none) ∧
  r.created_at ≤ r.updated_at

/-- Registry-wide strengthening used for the induction: every stored record
satisfies the invariant and was last touched no later than `T`. -/
def registryInv {ρ : Type} (reg : JobRegistry ρ) (T : Nat) : Prop :=
  ∀ h r, reg h = some r → jobRecordInv r ∧ r.updated_at ≤ T

/-- The per-hash sequence invariant: stored sequence numbers are exactly
`1, 2, …, n` in order. -/
def timelineSeqOk (evs : List TimelineEvent) : Prop :=
  evs.map TimelineEvent.sequence = List.range' 1 evs.length

/-- The per-hash stream-id invariant: `(millis, seq)` pairs are non-decreasing
along the buffer. -/
def timelineIdsChain (evs : List TimelineEvent) : Prop :=
  List.Chain' streamIdLe (evs.map fun e => (e.millis, e.sequence))

/-- All stored events were written at or before instant `T`. -/
def timelineMillisLe (evs : List TimelineEvent) (T : Nat) : Prop :=
  ∀ e ∈ evs, e.millis ≤ T

/-- A character list that does not continue a decimal number token. -/
def noDigitHead (l : List Char) : Prop :=
  ∀ c, l.head? = some c → isDigitChar c = false

/-- The temporal property of claim C1: wherever the trace publishes
`response.completed`, a Job Registry completed-write strictly precedes it. -/
def completedRequiresMark (tr : List TAct) : Prop :=
  ∀ l1 h l2, tr = l1 ++ TAct.publish h "response.completed" :: l2 →
    TAct.markCompleted ∈ l1

/-! ## Theorems -/

/-- Claim C8 counterexample: scrubbing a tuple yields a tuple, not a list —
`type(value)(cleaned)` reconstructs the input container kind, so the claim's
"produces a list in the output when the input was a tuple or a set" fails at
the one-element tuple `(None,)` under the default timeline scrubber. -/
theorem c8_counterexample :
    scrub_payload (fun _ => []) DEFAULT_TIMELINE_SCRUBBER Option.none
        (PyVal.tuple (PyItems.cons PyVal.pyNone PyItems.nil)) =
      PyVal.tuple (PyItems.cons PyVal.pyNone PyItems.nil) ∧
    PyVal.tuple (PyItems.cons PyVal.pyNone PyItems.nil) ≠
      PyVal.list (PyItems.cons PyVal.pyNone PyItems.nil) := by
  exact ⟨rfl, fun h => PyVal.noConfusion h⟩

/-- Claim C8 (amended): for every sequence value (list, tuple, or set) in a
position not matched by a redact or truncate field name, `scrub_payload` maps
the scrubbing over its elements and preserves the container kind — a list
yields a list, a tuple a tuple, and a set a set. -/
theorem c8_sequences_scrubbed_elementwise (hv : PyVal → List Char)
    (st : ScrubberSettings) (ov : Option Bool) (xs : PyItems) :
    scrub_payload hv st ov (PyVal.list xs) =
      PyVal.list (scrubItems hv (normalizedSettings st)
        (resolvedTruncFlag (normalizedSettings st) ov) xs) ∧
    scrub_payload hv st ov (PyVal.tuple xs) =
      PyVal.tuple (scrubItems hv (normalizedSettings st)
        (resolvedTruncFlag (normalizedSettings st) ov) xs) ∧
    scrub_payload hv st ov (PyVal.set xs) =
      PyVal.set (scrubItems hv (normalizedSettings st)
        (resolvedTruncFlag (normalizedSettings st) ov) xs) := by
  exact ⟨rfl, rfl, rfl⟩

/-- Claim C6: a serialized blob of exactly `CACHE_MAX_PAYLOAD_BYTES` bytes is
written to the cache with the requested ttl and `true` is returned; a blob
even one byte larger is not written (the adapter state is unchanged) and
`false` is returned. -/
theorem c6_store_cached_response_size_guard (enc : List Char → List Nat)
    (max_payload_bytes : Nat) (st : CacheState) (cache_key : String)
    (response : Json) (ttl_seconds : Nat) :
    ((serialize_payload enc response).length = max_payload_bytes →
      _store_cached_response enc max_payload_bytes (some st) cache_key response
          ttl_seconds =
        (some (fun k => if k = cache_key then
            some (serialize_payload enc response, ttl_seconds) else st k), true)) ∧
    (max_payload_bytes < (serialize_payload enc response).length →
      _store_cached_response enc max_payload_bytes (some st) cache_key response
          ttl_seconds = (some st, false)) := by
  constructor
  · intro h
    simp only [_store_cached_response, h, lt_irrefl, if_false]
  · intro h
    simp only [_store_cached_response, if_pos h]

/-- Claim C6 witness: with byte encoding by code points, the four-byte blob
for `true` stores at a limit of exactly four bytes and is refused at three. -/
theorem c6_witness :
    (_store_cached_response (fun l => l.map Char.toNat) 4 (some (fun _ => none))
        "cache:response:v1:k" (Json.bool true) 60 =
      (some (fun k => if k = "cache:response:v1:k" then
          some (serialize_payload (fun l => l.map Char.toNat) (Json.bool true), 60)
        else none), true)) ∧
    (_store_cached_response (fun l => l.map Char.toNat) 3 (some (fun _ => none))
        "cache:response:v1:k" (Json.bool true) 60 = (some (fun _ => none), false)) :=
  ⟨(c6_store_cached_response_size_guard (fun l => l.map Char.toNat) 4 (fun _ => none)
      "cache:response:v1:k" (Json.bool true) 60).1 (by decide),
   (c6_store_cached_response_size_guard (fun l => l.map Char.toNat) 3 (fun _ => none)
      "cache:response:v1:k" (Json.bool true) 60).2 (by decide)⟩

/-- Claim C9: for a completed job whose stored result is absent, falsy, or
fails `SearchResponse` validation, the result endpoint rebuilds the response
from the per-request cache using the job's query and metadata — 200 completed
when that succeeds — and answers 500 `"Result unavailable"` only when the
fallback also yields nothing. -/
theorem c9_completed_result_fallback {ρ α : Type} (validate : ρ → Option α)
    (truthy : ρ → Bool) (load_cached : String → List (String × Json) → Option α)
    (j : JobRecord ρ) (hstatus : j.status = .completed)
    (hresult : (match j.result with
                | some p => if truthy p then validate p else none
                | none => none) = (none : Option α)) :
    get_search_result validate truthy load_cached (some j) =
      (match load_cached j.query j.metadata with
       | some r => ResultResponse.completed r
       | none => ResultResponse.unavailable) ∧
    resultStatusCode (get_search_result validate truthy load_cached (some j)) =
      (match load_cached j.query j.metadata with
       | some _ => 200
       | none => 500) := by
  have hmain : get_search_result validate truthy load_cached (some j) =
      (match load_cached j.query j.metadata with
       | some r => ResultResponse.completed r
       | none => ResultResponse.unavailable) := by
    simp only [get_search_result, hstatus, hresult]
  refine ⟨hmain, ?_⟩
  rw [hmain]
  cases load_cached j.query j.metadata <;> rfl

/-- Claim C9 witness: a completed job with a stored payload that fails
validation is served from the cache fallback at 200. -/
theorem c9_witness :
    get_search_result (fun _ : Unit => (none : Option Unit)) (fun _ => true)
        (fun _ _ => some ())
        (some { query := "smart speaker", status := .completed, created_at := 0,
                updated_at := 1, result := some (), error := none,
                metadata := [] }) = ResultResponse.completed () ∧
    resultStatusCode (get_search_result (fun _ : Unit => (none : Option Unit))
        (fun _ => true) (fun _ _ => some ())
        (some { query := "smart speaker", status := .completed, created_at := 0,
                updated_at := 1, result := some (), error := none,
                metadata := [] })) = 200 :=
  c9_completed_result_fallback (fun _ => none) (fun _ => true) (fun _ _ => some ())
    _ rfl rfl

/-- One timed registry operation preserves the registry invariant, advancing
the time bound to the operation's instant. -/
theorem applyJobOp_inv {ρ : Type} (reg : JobRegistry ρ) (T now : Nat)
    (op : JobOp ρ) (hreg : registryInv reg T) (hT : T ≤ now) :
    registryInv (applyJobOp reg now op) now := by
  intro h r hr
  cases op with
  | opPending qh q meta =>
    simp only [applyJobOp, mark_pending] at hr
    split at hr
    · cases hprev : reg qh with
      | none =>
        rw [hprev] at hr
        cases hr
        exact ⟨⟨by simp [jobRecordInv], by simp, le_refl _⟩, le_refl _⟩
      | some r0 =>
        rw [hprev] at hr
        cases hr
        have h0 := hreg qh r0 hprev
        refine ⟨⟨by simp [jobRecordInv], by simp, ?_⟩, le_refl _⟩
        exact le_trans (le_trans h0.1.2.2 h0.2) hT
    · exact ⟨(hreg h r hr).1, le_trans (hreg h r hr).2 hT⟩
  | opCompleted qh res =>
    simp only [applyJobOp, mark_completed] at hr
    split at hr
    · cases hprev : reg qh with
      | none =>
        rw [hprev] at hr
        cases hr
        exact ⟨⟨by simp [jobRecordInv], by simp, le_refl _⟩, le_refl _⟩
      | some r0 =>
        rw [hprev] at hr
        cases hr
        have h0 := hreg qh r0 hprev
        refine ⟨⟨by simp [jobRecordInv], by simp, ?_⟩, le_refl _⟩
        exact le_trans (le_trans h0.1.2.2 h0.2) hT
    · exact ⟨(hreg h r hr).1, le_trans (hreg h r hr).2 hT⟩
  | opFailed qh err =>
    simp only [applyJobOp, mark_failed] at hr
    split at hr
    · cases hprev : reg qh with
      | none =>
        rw [hprev] at hr
        cases hr
        exact ⟨⟨by simp [jobRecordInv], by simp, le_refl _⟩, le_refl _⟩
      | some r0 =>
        rw [hprev] at hr
        cases hr
        have h0 := hreg qh r0 hprev
        refine ⟨⟨by simp [jobRecordInv], by simp, ?_⟩, le_refl _⟩
        exact le_trans (le_trans h0.1.2.2 h0.2) hT
    · exact ⟨(hreg h r hr).1, le_trans (hreg h r hr).2 hT⟩
  | opClear qh =>
    simp only [applyJobOp, clear_job] at hr
    split at hr
    · cases hr
    · exact ⟨(hreg h r hr).1, le_trans (hreg h r hr).2 hT⟩

/-- Folding a chronological operation sequence preserves the record
invariant. -/
theorem applyJobOps_inv {ρ : Type} (ops : List (Nat × JobOp ρ)) :
    ∀ (reg : JobRegistry ρ) (T : Nat), registryInv reg T →
      List.Chain' (· ≤ ·) (T :: ops.map Prod.fst) →
      ∀ h r, applyJobOps ops reg h = some r → jobRecordInv r := by
  induction ops with
  | nil =>
    intro reg T hreg _ h r hr
    exact (hreg h r hr).1
  | cons p rest ih =>
    intro reg T hreg hchain h r hr
    obtain ⟨now, op⟩ := p
    rw [List.map_cons, List.chain'_cons] at hchain
    exact ih (applyJobOp reg now op) now
      (applyJobOp_inv reg T now op hreg hchain.1) hchain.2 h r hr

/-- Claim C3: after any chronological sequence of registry operations
(`mark_pending`, `mark_completed` with its non-null result, `mark_failed`,
`clear_job`) starting from the empty registry, every stored job record
satisfies `status=completed ⇒ result≠null ∧ error=null`,
`status=failed ⇒ error≠null`, and `updated_at ≥ created_at`. -/
theorem c3_job_registry_invariants {ρ : Type} (ops : List (Nat × JobOp ρ))
    (hchron : List.Chain' (· ≤ ·) (ops.map Prod.fst)) :
    ∀ h r, applyJobOps ops emptyRegistry h = some r → jobRecordInv r := by
  have h0 : registryInv (emptyRegistry : JobRegistry ρ) 0 := by
    intro h r hr
    simp [emptyRegistry] at hr
  have hchain : List.Chain' (· ≤ ·) (0 :: ops.map Prod.fst) := by
    cases hops : ops.map Prod.fst with
    | nil => simp
    | cons a l =>
      rw [hops] at hchron
      exact List.chain'_cons.mpr ⟨Nat.zero_le a, hchron⟩
  exact applyJobOps_inv ops emptyRegistry 0 h0 hchain

/-- Claim C3 witness: a pending/complete/fail/clear/complete history leaves a
record satisfying the invariant. -/
theorem c3_witness :
    jobRecordInv ({ query := ""
                    status := .completed
                    created_at := 4
                    updated_at := 4
                    result := some ()
                    error := none
                    metadata := [] } : JobRecord Unit) :=
  c3_job_registry_invariants
    [(0, .opPending "h1" "smart speaker" []), (1, .opCompleted "h1" ()),
     (2, .opFailed "h1" "engine down"), (3, .opClear "h1"),
     (4, .opCompleted "h1" ())]
    (by simp [List.chain'_cons]) "h1" _ rfl

/-- In a buffer with gap-free sequences, every stored sequence number is at
most the buffer length. -/
theorem sequence_le_length_of_seqOk (evs : List TimelineEvent)
    (hseq : timelineSeqOk evs) : ∀ e ∈ evs, e.sequence ≤ evs.length := by
  intro e he
  have hmem : e.sequence ∈ evs.map TimelineEvent.sequence :=
    List.mem_map_of_mem _ he
  rw [hseq] at hmem
  have := List.mem_range'_1.mp hmem
  omega


/-- The per-hash effect of one in-memory write. -/
theorem write_in_memory_apply (tls : String → List TimelineEvent)
    (event_id query_hash step : String) (t : Nat) (h : String) :
    (_write_in_memory tls event_id query_hash step t).1 h =
      if h = query_hash then
        tls query_hash ++ [{ event_id := event_id
                             query_hash := query_hash
                             step := step
                             millis := t
                             sequence := (tls query_hash).length + 1 }]
      else tls h := rfl

/-- One in-memory write at instant `t ≥ T` preserves the per-hash invariants,
appending sequence `len + 1` to the written hash only. -/
theorem write_in_memory_inv (tls : String → List TimelineEvent)
    (event_id query_hash step : String) (t T : Nat)
    (hseq : ∀ h, timelineSeqOk (tls h))
    (hids : ∀ h, timelineIdsChain (tls h))
    (hmil : ∀ h, timelineMillisLe (tls h) T) (hT : T ≤ t) :
    (∀ h, timelineSeqOk ((_write_in_memory tls event_id query_hash step t).1 h)) ∧
    (∀ h, timelineIdsChain ((_write_in_memory tls event_id query_hash step t).1 h)) ∧
    (∀ h, timelineMillisLe ((_write_in_memory tls event_id query_hash step t).1 h) t) ∧
    (∀ h, ((_write_in_memory tls event_id query_hash step t).1 h).length =
      (tls h).length + (if query_hash = h then 1 else 0)) := by
  refine ⟨fun h => ?_, fun h => ?_, fun h => ?_, fun h => ?_⟩
  · rw [write_in_memory_apply]
    by_cases hh : h = query_hash
    · rw [if_pos hh]
      unfold timelineSeqOk
      rw [List.map_append, hseq query_hash, List.length_append]
      have hc := @List.range'_concat 1 1 (tls query_hash).length
      simp only [List.map_cons, List.map_nil, List.length_cons, List.length_nil]
      rw [Nat.add_zero, hc]
      congr 1
      simp [Nat.add_comm]
    · rw [if_neg hh]
      exact hseq h
  · rw [write_in_memory_apply]
    by_cases hh : h = query_hash
    · rw [if_pos hh]
      unfold timelineIdsChain
      rw [List.map_append]
      refine List.chain'_append.mpr ⟨hids query_hash, ?_, ?_⟩
      · simp only [List.map_cons, List.map_nil]
        exact List.chain'_singleton _
      · intro x hx y hy
        simp only [List.map_cons, List.map_nil, List.head?_cons, Option.mem_def,
          Option.some.injEq] at hy
        have hxmem := List.mem_of_mem_getLast? hx
        obtain ⟨e, he, hfe⟩ := List.mem_map.mp hxmem
        have h1 : e.millis ≤ T := hmil query_hash e he
        have h2 : e.sequence ≤ (tls query_hash).length :=
          sequence_le_length_of_seqOk (tls query_hash) (hseq query_hash) e he
        subst hy
        subst hfe
        unfold streamIdLe
        simp only
        omega
    · rw [if_neg hh]
      exact hids h
  · rw [write_in_memory_apply]
    by_cases hh : h = query_hash
    · rw [if_pos hh]
      intro e he
      rcases List.mem_append.mp he with hl | hr
      · exact le_trans (hmil query_hash e hl) hT
      · simp only [List.mem_singleton] at hr
        subst hr
        exact le_refl _
    · rw [if_neg hh]
      intro e he
      exact le_trans (hmil h e he) hT
  · rw [write_in_memory_apply]
    by_cases hh : h = query_hash
    · rw [if_pos hh, if_pos hh.symm, hh, List.length_append]
      rfl
    · rw [if_neg hh, if_neg (fun hx => hh hx.symm)]
      rfl

/-- Folding a chronological publish sequence preserves the invariants and
adds one event per publish to the published hash. -/
theorem applyPublishes_inv (pubs : List PublishCall) :
    ∀ (tls : String → List TimelineEvent) (T : Nat),
      (∀ h, timelineSeqOk (tls h)) → (∀ h, timelineIdsChain (tls h)) →
      (∀ h, timelineMillisLe (tls h) T) →
      List.Chain' (· ≤ ·) (T :: pubs.map PublishCall.millis) →
      ∀ h, timelineSeqOk (applyPublishes pubs tls h) ∧
        timelineIdsChain (applyPublishes pubs tls h) ∧
        (applyPublishes pubs tls h).length =
          (tls h).length + pubs.countP (fun p => p.query_hash == h) := by
  induction pubs with
  | nil =>
    intro tls T hseq hids hmil _ h
    exact ⟨hseq h, hids h, by simp [applyPublishes]⟩
  | cons p rest ih =>
    intro tls T hseq hids hmil hchain h
    rw [List.map_cons, List.chain'_cons] at hchain
    have hw := write_in_memory_inv tls p.event_id p.query_hash p.step p.millis T
      hseq hids hmil hchain.1
    have hrest := ih (_write_in_memory tls p.event_id p.query_hash p.step p.millis).1
      p.millis hw.1 hw.2.1 hw.2.2.1 hchain.2 h
    refine ⟨hrest.1, hrest.2.1, ?_⟩
    have hstep : applyPublishes (p :: rest) tls =
        applyPublishes rest (_write_in_memory tls p.event_id p.query_hash p.step p.millis).1 :=
      rfl
    have hlen := hw.2.2.2 h
    rw [hstep, hrest.2.2, hlen]
    by_cases hph : p.query_hash = h
    · simp [List.countP_cons, hph]
      omega
    · simp [List.countP_cons, hph]

/-- Claim C5: after any chronological sequence of publishes to the in-memory
timeline backend, each hash's buffer carries sequence values exactly
`1, 2, …, n` where `n` is the number of publishes to that hash, and the
`(millis, seq)` stream-id pairs are monotonically non-decreasing. -/
theorem c5_in_memory_timeline_invariants (pubs : List PublishCall)
    (hchron : List.Chain' (· ≤ ·) (pubs.map PublishCall.millis)) (h : String) :
    timelineSeqOk (applyPublishes pubs emptyTimelines h) ∧
    timelineIdsChain (applyPublishes pubs emptyTimelines h) ∧
    (applyPublishes pubs emptyTimelines h).length =
      pubs.countP (fun p => p.query_hash == h) := by
  have hchain : List.Chain' (· ≤ ·) (0 :: pubs.map PublishCall.millis) := by
    cases hops : pubs.map PublishCall.millis with
    | nil => simp
    | cons a l =>
      rw [hops] at hchron
      exact List.chain'_cons.mpr ⟨Nat.zero_le a, hchron⟩
  have hmain := applyPublishes_inv pubs emptyTimelines 0
    (fun _ => by simp [emptyTimelines, timelineSeqOk])
    (fun _ => by simp [emptyTimelines, timelineIdsChain])
    (fun _ => by simp [emptyTimelines, timelineMillisLe]) hchain h
  simpa [emptyTimelines] using hmain

/-- Claim C5 witness: three publishes (two to one hash) at non-decreasing
instants yield gap-free sequences and ordered stream ids. -/
theorem c5_witness :
    timelineSeqOk (applyPublishes
      [⟨"e1", "ha", "search.cache.miss", 5⟩, ⟨"e2", "hb", "search.cache.hit", 5⟩,
       ⟨"e3", "ha", "response.completed", 7⟩] emptyTimelines "ha") ∧
    timelineIdsChain (applyPublishes
      [⟨"e1", "ha", "search.cache.miss", 5⟩, ⟨"e2", "hb", "search.cache.hit", 5⟩,
       ⟨"e3", "ha", "response.completed", 7⟩] emptyTimelines "ha") ∧
    (applyPublishes
      [⟨"e1", "ha", "search.cache.miss", 5⟩, ⟨"e2", "hb", "search.cache.hit", 5⟩,
       ⟨"e3", "ha", "response.completed", 7⟩] emptyTimelines "ha").length = 2 := by
  have := c5_in_memory_timeline_invariants
    [⟨"e1", "ha", "search.cache.miss", 5⟩, ⟨"e2", "hb", "search.cache.hit", 5⟩,
     ⟨"e3", "ha", "response.completed", 7⟩] (by simp [List.chain'_cons]) "ha"
  simpa using this

/-- A falsy hash silences one emission. -/
theorem emitActs_falsy (qh : Option String) (hqh : qh = none ∨ qh = some "")
    (step : String) : emitActs qh step = [] := by
  rcases hqh with h1 | h1 <;> simp [h1, emitActs]

/-- A falsy hash silences forwarded emissions as well. -/
theorem emitAllActs_falsy (qh : Option String) (hqh : qh = none ∨ qh = some "")
    (steps : List String) : emitAllActs qh steps = [] := by
  induction steps with
  | nil => rfl
  | cons a t iht =>
    simp only [emitAllActs, List.map_cons, List.flatten_cons,
      emitActs_falsy qh hqh a, List.nil_append]
    simpa [emitAllActs] using iht

/-- Claim C10: the orchestrator's timeline emission is best-effort — with a
null or empty `query_hash` no event is published at all (any publish in the
trace can only come from the caller's hook), the returned outcome does not
depend on the hash (and hence on any timeline effect), and an error outcome
can only originate in the engine or the analysis pipeline, never in timeline
publishing. -/
theorem c10_timeline_best_effort {α β : Type} (p : SearchRunParams α β)
    (hook : Option (List TAct)) (ec : Bool) (qh' : Option String) :
    ((p.query_hash = none ∨ p.query_hash = some "") →
      ∀ h s, TAct.publish h s ∈ (search_products p hook ec).1 →
        TAct.publish h s ∈ hookActs hook) ∧
    ((search_products { p with query_hash := qh' } hook ec).2 =
      (search_products p hook ec).2) ∧
    (∀ e, (search_products p hook ec).2 = .error e →
      p.engineOutcome = Except.error e ∨ p.ragOutcome = Except.error e) := by
  obtain ⟨qh, ce, bc, cached, ee, eo, re, ro, so, ck⟩ := p
  refine ⟨?_, ?_, ?_⟩
  · intro hqh h s hmem
    have hqh' : qh = none ∨ qh = some "" := hqh
    cases ce <;> cases bc <;> cases cached <;> cases eo <;> cases ro <;>
      simp [search_products, emitActs_falsy qh hqh', emitAllActs_falsy qh hqh',
        ite_self] at hmem <;>
      exact hmem
  · cases ce <;> cases bc <;> cases cached <;> cases eo <;> cases ro <;> rfl
  · intro e herr
    cases ce <;> cases bc <;> cases cached <;> cases eo <;> cases ro <;>
      simp [search_products] at herr <;>
      dsimp only <;>
      first
        | exact Or.inl (by rw [herr])
        | exact Or.inr (by rw [herr])

/-- Claim C10 witness: with a null hash the only publish in a run's trace is
the one the hook itself performs; the outcome is hash-independent; and a
failing run's error is the engine's. -/
theorem c10_witness :
    (TAct.publish "x" "other.step" ∈ hookActs (some [TAct.publish "x" "other.step"])) ∧
    ((search_products
        { query_hash := some "h2"
          cache_enabled := true
          bypass_cache := false
          cached := some ()
          engineEmits := []
          engineOutcome := Except.ok ()
          ragEmits := []
          ragOutcome := Except.ok ()
          storeOk := true
          cache_key := "k" } (some [TAct.publish "x" "other.step"]) true).2 =
      (search_products
        { query_hash := (none : Option String)
          cache_enabled := true
          bypass_cache := false
          cached := some ()
          engineEmits := []
          engineOutcome := (Except.ok () : Except String Unit)
          ragEmits := []
          ragOutcome := (Except.ok () : Except String Unit)
          storeOk := true
          cache_key := "k" } (some [TAct.publish "x" "other.step"]) true).2) ∧
    ((Except.error "boom" : Except String Unit) = Except.error "boom" ∨
      (Except.ok () : Except String Unit) = Except.error "boom") :=
  ⟨(c10_timeline_best_effort
      { query_hash := (none : Option String)
        cache_enabled := true
        bypass_cache := false
        cached := some ()
        engineEmits := []
        engineOutcome := (Except.ok () : Except String Unit)
        ragEmits := []
        ragOutcome := (Except.ok () : Except String Unit)
        storeOk := true
        cache_key := "k" } (some [TAct.publish "x" "other.step"]) true
      (some "h2")).1 (Or.inl rfl) "x" "other.step" (by decide),
   (c10_timeline_best_effort
      { query_hash := (none : Option String)
        cache_enabled := true
        bypass_cache := false
        cached := some ()
        engineEmits := []
        engineOutcome := (Except.ok () : Except String Unit)
        ragEmits := []
        ragOutcome := (Except.ok () : Except String Unit)
        storeOk := true
        cache_key := "k" } (some [TAct.publish "x" "other.step"]) true
      (some "h2")).2.1,
   (c10_timeline_best_effort
      { query_hash := (none : Option String)
        cache_enabled := true
        bypass_cache := false
        cached := none
        engineEmits := []
        engineOutcome := (Except.error "boom" : Except String Unit)
        ragEmits := []
        ragOutcome := (Except.ok () : Except String Unit)
        storeOk := true
        cache_key := "k" } (some [TAct.publish "x" "other.step"]) true
      (some "h2")).2.2 "boom" rfl⟩

/-- Once a completed-write has occurred, the checker accepts any suffix. -/
theorem mbc_true (l : List TAct) : marksBeforeCompleted l true = true := by
  induction l with
  | nil => rfl
  | cons a t ih =>
    cases a with
    | publish qh s => simpa [marksBeforeCompleted] using ih
    | runHook => simpa [marksBeforeCompleted] using ih
    | markCompleted => simpa [marksBeforeCompleted] using ih
    | markFailed => simpa [marksBeforeCompleted] using ih

/-- A publish of any step other than `response.completed` passes the checker
without changing the flag. -/
theorem mbc_emit_ne (qh : Option String) (step : String) (rest : List TAct)
    (seen : Bool) (hstep : step ≠ "response.completed") :
    marksBeforeCompleted (emitActs qh step ++ rest) seen =
      marksBeforeCompleted rest seen := by
  cases qh with
  | none => rfl
  | some h =>
    by_cases hh : h = ""
    · simp [emitActs, hh]
    · simp [emitActs, hh, marksBeforeCompleted, hstep]

/-- Forwarded collaborator emissions that never publish `response.completed`
pass the checker without changing the flag. -/
theorem mbc_emitAll_ne (qh : Option String) (steps : List String)
    (rest : List TAct) (seen : Bool)
    (hsteps : "response.completed" ∉ steps) :
    marksBeforeCompleted (emitAllActs qh steps ++ rest) seen =
      marksBeforeCompleted rest seen := by
  induction steps with
  | nil => rfl
  | cons a t ih =>
    have ha : a ≠ "response.completed" := by
      intro hc
      exact hsteps (hc ▸ List.mem_cons_self a t)
    have ht : "response.completed" ∉ t := fun hc => hsteps (List.mem_cons_of_mem a hc)
    have hstep : emitAllActs qh (a :: t) ++ rest =
        emitActs qh a ++ (emitAllActs qh t ++ rest) := by
      simp [emitAllActs, List.append_assoc]
    rw [hstep, mbc_emit_ne qh a _ seen (fun hx => ha hx), ih ht]

/-- The hook-invocation marker passes the checker unchanged. -/
theorem mbc_runHook (l : List TAct) (seen : Bool) :
    marksBeforeCompleted (TAct.runHook :: l) seen = marksBeforeCompleted l seen := rfl

/-- A completed-write sets the flag. -/
theorem mbc_markCompleted (l : List TAct) (seen : Bool) :
    marksBeforeCompleted (TAct.markCompleted :: l) seen =
      marksBeforeCompleted l true := rfl

/-- The checker distributes over an append whose right part passes under any
flag. -/
theorem mbc_append_of (l1 l2 : List TAct) (seen : Bool)
    (h1 : marksBeforeCompleted l1 seen = true)
    (h2 : ∀ b, marksBeforeCompleted l2 b = true) :
    marksBeforeCompleted (l1 ++ l2) seen = true := by
  induction l1 generalizing seen with
  | nil => exact h2 seen
  | cons a t ih =>
    cases a with
    | publish qh s =>
      simp only [marksBeforeCompleted, Bool.and_eq_true] at h1
      simp only [List.cons_append, marksBeforeCompleted, Bool.and_eq_true]
      exact ⟨h1.1, ih seen h1.2⟩
    | runHook => exact ih seen h1
    | markCompleted => exact ih true h1
    | markFailed => exact ih seen h1

/-- A checker pass means every `response.completed` publish is preceded by a
completed-write (or the flag was set on entry). -/
theorem mbc_sound (l1 : List TAct) :
    ∀ (seen : Bool) (h : String) (l2 : List TAct),
      marksBeforeCompleted (l1 ++ TAct.publish h "response.completed" :: l2) seen = true →
      seen = true ∨ TAct.markCompleted ∈ l1 := by
  induction l1 with
  | nil =>
    intro seen h l2 hchk
    simp only [List.nil_append, marksBeforeCompleted, Bool.and_eq_true] at hchk
    have h1 := hchk.1
    simp only [bne_self_eq_false, Bool.false_or] at h1
    exact Or.inl h1
  | cons a t ih =>
    intro seen h l2 hchk
    cases a with
    | publish qh s =>
      simp only [List.cons_append, marksBeforeCompleted, Bool.and_eq_true] at hchk
      rcases ih seen h l2 hchk.2 with h3 | h3
      · exact Or.inl h3
      · exact Or.inr (List.mem_cons_of_mem _ h3)
    | runHook =>
      rcases ih seen h l2 hchk with h3 | h3
      · exact Or.inl h3
      · exact Or.inr (List.mem_cons_of_mem _ h3)
    | markCompleted => exact Or.inr (List.mem_cons_self _ _)
    | markFailed =>
      rcases ih seen h l2 hchk with h3 | h3
      · exact Or.inl h3
      · exact Or.inr (List.mem_cons_of_mem _ h3)

/-- Every `search_products` run with the job's finalize hook passes the
checker: whenever `response.completed` is published, the registry
completed-write has already happened. -/
theorem mbc_search_products {α β : Type} (p : SearchRunParams α β)
    (hE : "response.completed" ∉ p.engineEmits)
    (hR : "response.completed" ∉ p.ragEmits) :
    marksBeforeCompleted
      (search_products p (some [TAct.markCompleted]) true).1 false = true := by
  obtain ⟨qh, ce, bc, cached, ee, eo, re, ro, so, ck⟩ := p
  simp only at hE hR
  cases ce <;> cases bc <;> cases cached <;> cases eo <;> cases ro <;> cases so <;>
    simp [search_products, hookActs, List.append_assoc] <;>
    repeat first
      | rw [mbc_emit_ne _ _ _ _ (by decide)]
      | rw [mbc_emitAll_ne _ _ _ _ hE]
      | rw [mbc_emitAll_ne _ _ _ _ hR]
      | rw [mbc_runHook]
      | rw [mbc_markCompleted]
      | exact mbc_true _
      | exact (by rw [← List.append_nil (emitAllActs qh ee),
          mbc_emitAll_ne _ _ _ _ hE]; rfl)
      | exact (by rw [← List.append_nil (emitAllActs qh re),
          mbc_emitAll_ne _ _ _ _ hR]; rfl)
      | rfl

/-- Claim C1: in every completed search run — fresh engine run, per-request
cache hit, or precomputed/canonical hit — the background job's trace marks
the job completed in the Job Registry (by awaiting the before-completion
hook, or directly on the precomputed path) strictly before any
`response.completed` timeline event is published.  The hypotheses state the
engine/pipeline contract that collaborator callbacks do not themselves emit
`response.completed`. -/
theorem c1_completed_after_registry_write {α β : Type} (p : SearchRunParams α β)
    (precomputed : Option α)
    (hE : "response.completed" ∉ p.engineEmits)
    (hR : "response.completed" ∉ p.ragEmits) :
    completedRequiresMark (_execute_search_job p precomputed) := by
  have hchk : marksBeforeCompleted (_execute_search_job p precomputed) false = true := by
    cases precomputed with
    | some r =>
      cases hbc : p.bypass_cache with
      | false =>
        simp only [_execute_search_job, hbc]
        rw [List.append_assoc, List.singleton_append,
          mbc_emit_ne _ _ _ _ (by decide), mbc_markCompleted]
        exact mbc_true _
      | true =>
        simp only [_execute_search_job, hbc]
        rcases hsp : (search_products p (some [TAct.markCompleted]) true).2 with e | v
        · exact mbc_append_of _ _ _ (mbc_search_products p hE hR) (fun b => rfl)
        · exact mbc_search_products p hE hR
    | none =>
      simp only [_execute_search_job]
      rcases hsp : (search_products p (some [TAct.markCompleted]) true).2 with e | v
      · exact mbc_append_of _ _ _ (mbc_search_products p hE hR) (fun b => rfl)
      · exact mbc_search_products p hE hR
  intro l1 h l2 heq
  rcases mbc_sound l1 false h l2 (by rw [← heq]; exact hchk) with h1 | h1
  · exact absurd h1 (by simp)
  · exact h1

/-- Claim C1 witness: in a per-request cache-hit run the registry
completed-write sits strictly before the `response.completed` publish. -/
theorem c1_witness :
    TAct.markCompleted ∈
      [TAct.publish "qh1" "search.cache.hit", TAct.runHook, TAct.markCompleted] :=
  c1_completed_after_registry_write
    { query_hash := some "qh1"
      cache_enabled := true
      bypass_cache := false
      cached := some ()
      engineEmits := []
      engineOutcome := (Except.ok () : Except String Unit)
      ragEmits := []
      ragOutcome := (Except.ok () : Except String Unit)
      storeOk := true
      cache_key := "k" } none (by decide) (by decide)
    [TAct.publish "qh1" "search.cache.hit", TAct.runHook, TAct.markCompleted]
    "qh1" [] rfl

/-- Claim C4 counterexample, in two parts. First, a guest request carrying
a non-null mismatching `query_hash` while guest hashed queries are disabled
is rejected with 403 by the admission gate, not with the claimed 400 — the
guest check precedes the fingerprint check. Second, an admitted request
whose `query_hash` is the empty string — non-null, and different from the
computed hash — is not rejected at all: the truthiness test
`if payload.query_hash and ...` treats it as absent, so the request is
accepted with the computed hash and the state is mutated (a background task
is scheduled). -/
theorem c4_counterexample :
    (submit_search (ρ := Unit) (fun _ => "deadbeef") false
      { query := "smart speaker"
        query_hash := some "beef"
        products_k := 3
        reviews_per_product := 3
        bypass_cache := false }
      { subject := "guest-1", role := "guest" } 0
      { jobs := emptyRegistry, timelines := emptyTimelines, tasks := [] } =
      (SubmitOutcome.clientError 403,
       { jobs := emptyRegistry, timelines := emptyTimelines, tasks := [] }) ∧
    SubmitOutcome.clientError 403 ≠ SubmitOutcome.clientError 400) ∧
    ((some "" : Option String) ≠ none ∧ "" ≠ "deadbeef" ∧
    (submit_search (ρ := Unit) (fun _ => "deadbeef") false
      { query := "smart speaker"
        query_hash := some ""
        products_k := 3
        reviews_per_product := 3
        bypass_cache := false }
      { subject := "alice", role := "member" } 0
      { jobs := emptyRegistry, timelines := emptyTimelines, tasks := [] }).1 =
      SubmitOutcome.accepted "deadbeef" ∧
    (submit_search (ρ := Unit) (fun _ => "deadbeef") false
      { query := "smart speaker"
        query_hash := some ""
        products_k := 3
        reviews_per_product := 3
        bypass_cache := false }
      { subject := "alice", role := "member" } 0
      { jobs := emptyRegistry, timelines := emptyTimelines, tasks := [] }).2.tasks =
      ["deadbeef"]) :=
  ⟨⟨rfl, by decide⟩, by decide, by decide, rfl, rfl⟩

/-- Claim C4 (amended): for every `POST /search` request that passes the
guest-admission gate and carries a truthy (non-empty) `query_hash` differing
from the server-computed fingerprint hash, the endpoint responds 400 and the
server state is returned unchanged: no job record is created or reset, the
timeline is not cleared, and no background task is scheduled. -/
theorem c4_hash_mismatch_rejected {ρ : Type} (sha : List Char → String)
    (enable_guest_hashed_queries : Bool) (payload : SearchRequestPayload)
    (auth : AuthContext) (now : Nat) (st : ServerState ρ) (qh : String)
    (hadm : ¬((auth.role.data.map lowerChar = "guest".data) ∧
      ¬enable_guest_hashed_queries))
    (hqh : payload.query_hash = some qh) (hne : qh ≠ "")
    (hmismatch : qh ≠ build_query_hash sha payload.query payload.products_k
      payload.reviews_per_product (auth.role.data.map lowerChar = "guest".data)
      (if auth.subject = "" then none else some auth.subject)) :
    submit_search sha enable_guest_hashed_queries payload auth now st =
      (SubmitOutcome.clientError 400, st) := by
  simp only [submit_search, if_neg hadm, hqh]
  rw [if_pos ⟨hne, hmismatch⟩]

/-- Claim C4 witness: a non-guest mismatching submission is rejected with 400
and leaves the state untouched. -/
theorem c4_witness :
    submit_search (ρ := Unit) (fun _ => "aaaa") true
      { query := "smart speaker"
        query_hash := some "bbbb"
        products_k := 3
        reviews_per_product := 3
        bypass_cache := false }
      { subject := "user-200", role := "user" } 7
      { jobs := emptyRegistry, timelines := emptyTimelines, tasks := [] } =
      (SubmitOutcome.clientError 400,
       { jobs := emptyRegistry, timelines := emptyTimelines, tasks := [] }) :=
  c4_hash_mismatch_rejected (fun _ => "aaaa") true
    { query := "smart speaker"
      query_hash := some "bbbb"
      products_k := 3
      reviews_per_product := 3
      bypass_cache := false }
    { subject := "user-200", role := "user" } 7
    { jobs := emptyRegistry, timelines := emptyTimelines, tasks := [] }
    "bbbb" (by decide) rfl (by decide) (by decide)

/-- `Char.ofNat` round-trips on the BMP range below the surrogates. -/
theorem toNat_ofNat_lt (n : Nat) (h : n < 55296) : (Char.ofNat n).toNat = n := by
  have hv : n.isValidChar := Or.inl h
  rw [Char.ofNat, dif_pos hv]
  rfl

/-- ASCII lower-casing is idempotent. -/
theorem lowerChar_idem (c : Char) : lowerChar (lowerChar c) = lowerChar c := by
  by_cases h : 65 ≤ c.toNat ∧ c.toNat ≤ 90
  · have htl : (lowerChar c).toNat = c.toNat + 32 := by
      rw [lowerChar, if_pos h]
      exact toNat_ofNat_lt _ (by omega)
    conv_lhs => rw [lowerChar]
    rw [if_neg (by omega)]
  · have hlc : lowerChar c = c := by rw [lowerChar, if_neg h]
    simp [hlc]

/-- Lower-casing does not change whitespace-ness. -/
theorem isWsChar_lowerChar (c : Char) : isWsChar (lowerChar c) = isWsChar c := by
  by_cases h : 65 ≤ c.toNat ∧ c.toNat ≤ 90
  · have htl : (lowerChar c).toNat = c.toNat + 32 := by
      rw [lowerChar, if_pos h]
      exact toNat_ofNat_lt _ (by omega)
    have hl : isWsChar (lowerChar c) = false := by
      simp only [isWsChar, htl, Bool.or_eq_false_iff, decide_eq_false_iff_not]
      omega
    have hr : isWsChar c = false := by
      simp only [isWsChar, Bool.or_eq_false_iff, decide_eq_false_iff_not]
      omega
    rw [hl, hr]
  · have hlc : lowerChar c = c := by rw [lowerChar, if_neg h]
    simp [hlc]

/-- `dropWhile` on whitespace commutes with lower-casing. -/
theorem dropWhile_map_lower (l : List Char) :
    (l.map lowerChar).dropWhile isWsChar = (l.dropWhile isWsChar).map lowerChar := by
  induction l with
  | nil => rfl
  | cons c t ih =>
    simp only [List.map_cons, List.dropWhile_cons, isWsChar_lowerChar c]
    cases hws : isWsChar c with
    | true => simpa [hws] using ih
    | false => simp [hws]

/-- Whitespace collapsing commutes with lower-casing. -/
theorem collapseWs_map_lower (l : List Char) :
    ∀ b, collapseWs b (l.map lowerChar) = (collapseWs b l).map lowerChar := by
  induction l with
  | nil => intro b; rfl
  | cons c t ih =>
    intro b
    simp only [List.map_cons, collapseWs, isWsChar_lowerChar c]
    cases hws : isWsChar c with
    | true =>
      cases b with
      | true => simpa using ih true
      | false =>
        have hsp : lowerChar ' ' = ' ' := by decide
        simp [ih true, hsp]
    | false => simp [ih false]

/-- Stripping commutes with lower-casing. -/
theorem stripChars_map_lower (l : List Char) :
    stripChars (l.map lowerChar) = (stripChars l).map lowerChar := by
  unfold stripChars
  rw [← List.map_reverse, dropWhile_map_lower, ← List.map_reverse,
    dropWhile_map_lower]

/-- The head of a whitespace-drop is never whitespace. -/
theorem head_dropWhile_not_ws (l : List Char) :
    ∀ c, (l.dropWhile isWsChar).head? = some c → isWsChar c = false := by
  induction l with
  | nil => intro c hc; cases hc
  | cons d t ih =>
    intro c hc
    rw [List.dropWhile_cons] at hc
    by_cases hd : isWsChar d
    · rw [if_pos (by simp [hd])] at hc
      exact ih c hc
    · rw [if_neg (by simp [hd])] at hc
      cases hc
      simpa using hd

/-- `dropWhile` only removes a prefix. -/
theorem dropWhile_suffix (p : Char → Bool) (l : List Char) :
    ∃ t, l = t ++ l.dropWhile p := by
  induction l with
  | nil => exact ⟨[], rfl⟩
  | cons d t ih =>
    by_cases hd : p d
    · obtain ⟨t0, ht0⟩ := ih
      refine ⟨d :: t0, ?_⟩
      rw [List.dropWhile_cons, if_pos hd]
      simpa using ht0
    · refine ⟨[], ?_⟩
      rw [List.dropWhile_cons, if_neg hd]
      rfl

/-- The head of the stripped string is never whitespace. -/
theorem stripChars_head (l : List Char) :
    ∀ c, (stripChars l).head? = some c → isWsChar c = false := by
  unfold stripChars
  exact head_dropWhile_not_ws _

/-- The last character of the stripped string is never whitespace. -/
theorem stripChars_last (l : List Char) :
    ∀ c, (stripChars l).reverse.head? = some c → isWsChar c = false := by
  intro c hc
  unfold stripChars at hc
  obtain ⟨t0, ht0⟩ :=
    dropWhile_suffix isWsChar ((l.reverse.dropWhile isWsChar).reverse)
  set S := ((l.reverse.dropWhile isWsChar).reverse).dropWhile isWsChar with hS
  have hrev : ((l.reverse.dropWhile isWsChar).reverse).reverse =
      S.reverse ++ t0.reverse := by
    rw [ht0]
    exact List.reverse_append ..
  rw [List.reverse_reverse] at hrev
  have hhead : (l.reverse.dropWhile isWsChar).head? = some c := by
    rw [hrev, List.head?_append, hc]
    rfl
  exact head_dropWhile_not_ws _ c hhead

/-- Collapsing preserves a non-whitespace head. -/
theorem collapseWs_head (l : List Char)
    (hl : ∀ c, l.head? = some c → isWsChar c = false) :
    ∀ c, (collapseWs false l).head? = some c → isWsChar c = false := by
  cases l with
  | nil => intro c hc; cases hc
  | cons d t =>
    intro c hc
    have hd : isWsChar d = false := hl d rfl
    rw [collapseWs, if_neg (by simp [hd])] at hc
    cases hc
    exact hd


/-- A string whose last character is not whitespace collapses to a nonempty
string. -/
theorem collapseWs_ne_nil (l : List Char) :
    ∀ (b : Bool) (c0 : Char), l.reverse.head? = some c0 → isWsChar c0 = false →
      collapseWs b l ≠ [] := by
  induction l with
  | nil => intro b c0 hc0; cases hc0
  | cons d t ih =>
    intro b c0 hc0 hws
    rw [List.reverse_cons, List.head?_append] at hc0
    cases hh : t.reverse.head? with
    | none =>
      rw [hh] at hc0
      simp only [Option.none_or, List.head?_cons, Option.some.injEq] at hc0
      subst hc0
      rw [collapseWs, if_neg (by simp [hws])]
      simp
    | some y =>
      rw [hh] at hc0
      simp only [Option.or_some, Option.some.injEq] at hc0
      subst hc0
      by_cases hd : isWsChar d
      · rw [collapseWs, if_pos (by simp [hd])]
        cases b with
        | true => exact ih true y hh hws
        | false => simp
      · rw [collapseWs, if_neg (by simp [hd])]
        simp

/-- Collapsing preserves a non-whitespace last character. -/
theorem collapseWs_last (l : List Char) :
    ∀ b : Bool, (∀ c, l.reverse.head? = some c → isWsChar c = false) →
      ∀ c, (collapseWs b l).reverse.head? = some c → isWsChar c = false := by
  induction l with
  | nil => intro b _ c hc; cases hc
  | cons d t ih =>
    intro b hl c hc
    have hlast : ∀ c2, t.reverse.head? = some c2 → isWsChar c2 = false := by
      intro c2 hc2
      apply hl c2
      rw [List.reverse_cons, List.head?_append, hc2]
      rfl
    by_cases hd : isWsChar d
    · rw [collapseWs, if_pos (by simp [hd])] at hc
      cases b with
      | true => exact ih true hlast c hc
      | false =>
        simp only [Bool.false_eq_true, if_false] at hc
        rw [List.reverse_cons, List.head?_append] at hc
        cases hh : (collapseWs true t).reverse.head? with
        | none =>
          rw [List.head?_eq_none_iff, List.reverse_eq_nil_iff] at hh
          cases hct : t.reverse.head? with
          | none =>
            rw [List.head?_eq_none_iff, List.reverse_eq_nil_iff] at hct
            subst hct
            exact absurd (hl d (by simp)) (by simp [hd])
          | some y =>
            exact absurd hh (collapseWs_ne_nil t true y hct (hlast y hct))
        | some y =>
          rw [hh] at hc
          simp only [Option.or_some, Option.some.injEq] at hc
          subst hc
          exact ih true hlast y hh
    · rw [collapseWs, if_neg (by simp [hd])] at hc
      rw [List.reverse_cons, List.head?_append] at hc
      cases hh : (collapseWs false t).reverse.head? with
      | none =>
        rw [hh] at hc
        simp only [Option.none_or, List.head?_cons, Option.some.injEq] at hc
        subst hc
        simpa using hd
      | some y =>
        rw [hh] at hc
        simp only [Option.or_some, Option.some.injEq] at hc
        subst hc
        exact ih false hlast y hh

/-- Whitespace collapsing is idempotent. -/
theorem collapseWs_idem (l : List Char) :
    ∀ b, collapseWs b (collapseWs b l) = collapseWs b l := by
  induction l with
  | nil => intro b; rfl
  | cons d t ih =>
    intro b
    by_cases hd : isWsChar d
    · rw [collapseWs, if_pos (by simp [hd])]
      cases b with
      | true => exact ih true
      | false =>
        simp only [Bool.false_eq_true, if_false]
        rw [collapseWs, if_pos (by decide)]
        simp only [Bool.false_eq_true, if_false]
        rw [ih true]
    · rw [collapseWs, if_neg (by simp [hd])]
      rw [collapseWs, if_neg (by simp [hd])]
      rw [ih false]

/-- Dropping leading whitespace fixes a string whose head is not
whitespace. -/
theorem dropWhile_eq_self_of_head (l : List Char)
    (hl : ∀ c, l.head? = some c → isWsChar c = false) :
    l.dropWhile isWsChar = l := by
  cases l with
  | nil => rfl
  | cons d t =>
    rw [List.dropWhile_cons, if_neg (by simp [hl d rfl])]

/-- `strip` fixes a string with no outer whitespace. -/
theorem stripChars_eq_self (l : List Char)
    (hhead : ∀ c, l.head? = some c → isWsChar c = false)
    (hlast : ∀ c, l.reverse.head? = some c → isWsChar c = false) :
    stripChars l = l := by
  unfold stripChars
  rw [dropWhile_eq_self_of_head l.reverse hlast, List.reverse_reverse,
    dropWhile_eq_self_of_head l hhead]

/-- `canonicalize_query` is idempotent: re-canonicalizing a canonical query
changes nothing.  This is what reconciles the doubly-canonicalizing call
sites (`build_canonical_query_key(canonical_query)`) with the
singly-canonicalizing ones (`build_precomputed_query_key(query)`). -/
theorem canonicalize_query_idem (q : List Char) :
    canonicalize_query (canonicalize_query q) = canonicalize_query q := by
  unfold canonicalize_query
  set s := stripChars q with hs
  have hhead : ∀ c, s.head? = some c → isWsChar c = false := stripChars_head q
  have hlast : ∀ c, s.reverse.head? = some c → isWsChar c = false :=
    stripChars_last q
  set t := collapseWs false s with htdef
  have hthead : ∀ c, t.head? = some c → isWsChar c = false :=
    collapseWs_head s hhead
  have htlast : ∀ c, t.reverse.head? = some c → isWsChar c = false :=
    collapseWs_last s false hlast
  have h1 : stripChars (t.map lowerChar) = (stripChars t).map lowerChar :=
    stripChars_map_lower t
  have h2 : stripChars t = t := stripChars_eq_self t hthead htlast
  rw [h1, h2, collapseWs_map_lower t false, htdef, collapseWs_idem s false,
    List.map_map]
  apply List.map_congr_left
  intro a _
  exact lowerChar_idem a

/-- Claim C2: `get_precomputed_response` resolves the canonical tier first —
`guest:canonical:query:<sha256(canonical)>` to a slug, then
`guest:canonical:<slug>` to a payload — returning that response when every
step succeeds; whenever the canonical chain yields no response it consults
the precomputed tier (`guest:precomputed:query:<sha256(canonical)>`, then
`guest:precomputed:<slug>`); when both chains fail the result is `none`. -/
theorem c2_precomputed_lookup_precedence {κ ρ : Type} (sha : List Char → String)
    (decSlug : κ → Option String) (decResp : κ → Option ρ)
    (store : String → Option κ) (query : List Char) :
    get_precomputed_response sha decSlug decResp store query =
      Option.or (canonicalLookupChain sha decSlug decResp store query)
        (precomputedLookupChain sha decSlug decResp store query) := by
  have hkey : build_canonical_query_key sha (canonicalize_query query) =
      "guest:canonical:query:" ++ sha (canonicalize_query query) := by
    unfold build_canonical_query_key
    rw [canonicalize_query_idem]
  unfold get_precomputed_response canonicalLookupChain precomputedLookupChain
    build_precomputed_query_key build_canonical_payload_key
    build_precomputed_payload_key
  dsimp only
  rw [hkey]
  cases h1 : store ("guest:canonical:query:" ++ sha (canonicalize_query query)) with
  | none =>
    cases h5 : store ("guest:precomputed:query:" ++ sha (canonicalize_query query)) with
    | none => simp_all
    | some blob =>
      cases h6 : decSlug blob with
      | none => simp_all
      | some slug =>
        by_cases h7 : slug = ""
        · simp_all
        · cases h8 : store ("guest:precomputed:" ++ slug) with
          | none => simp_all
          | some pb2 => simp_all
  | some cb =>
    cases h2 : decSlug cb with
    | none =>
      cases h5 : store ("guest:precomputed:query:" ++ sha (canonicalize_query query)) with
      | none => simp_all
      | some blob =>
        cases h6 : decSlug blob with
        | none => simp_all
        | some slug =>
          by_cases h7 : slug = ""
          · simp_all
          · cases h8 : store ("guest:precomputed:" ++ slug) with
            | none => simp_all
            | some pb2 => simp_all
    | some cslug =>
      by_cases h3 : cslug = ""
      · simp only [if_pos h3]
        cases h5 : store ("guest:precomputed:query:" ++ sha (canonicalize_query query)) with
        | none => simp_all
        | some blob =>
          cases h6 : decSlug blob with
          | none => simp_all
          | some slug =>
            by_cases h7 : slug = ""
            · simp_all
            · cases h8 : store ("guest:precomputed:" ++ slug) with
              | none => simp_all
              | some pb2 => simp_all
      · simp only [if_neg h3]
        cases h4 : store ("guest:canonical:" ++ cslug) with
        | none =>
          cases h5 : store ("guest:precomputed:query:" ++ sha (canonicalize_query query)) with
          | none => simp_all
          | some blob =>
            cases h6 : decSlug blob with
            | none => simp_all
            | some slug =>
              by_cases h7 : slug = ""
              · simp_all
              · cases h8 : store ("guest:precomputed:" ++ slug) with
                | none => simp_all
                | some pb2 => simp_all
        | some pb =>
          cases h9 : decResp pb with
          | none =>
            cases h5 : store ("guest:precomputed:query:" ++ sha (canonicalize_query query)) with
            | none => simp_all
            | some blob =>
              cases h6 : decSlug blob with
              | none => simp_all
              | some slug =>
                by_cases h7 : slug = ""
                · simp_all
                · cases h8 : store ("guest:precomputed:" ++ slug) with
                  | none => simp_all
                  | some pb2 => simp_all
          | some r => simp_all

/-- `skipWs` is the identity on input that does not start with JSON
whitespace. -/
theorem skipWs_cons (c : Char) (l : List Char) (h : isJsonWs c = false) :
    skipWs (c :: l) = c :: l := by
  simp [skipWs, List.dropWhile_cons, h]

/-- Characters differ when their code points do. -/
theorem char_ne_of_toNat_ne (c d : Char) (h : c.toNat ≠ d.toNat) : c ≠ d :=
  fun hc => h (congrArg Char.toNat hc)

/-- Code point of a decimal digit character. -/
theorem digitToChar_toNat (d : Nat) (h : d < 10) :
    (digitToChar d).toNat = 48 + d := by
  interval_cases d <;> decide

/-- Digit characters pass the digit test. -/
theorem isDigitChar_digitToChar (d : Nat) (h : d < 10) :
    isDigitChar (digitToChar d) = true := by
  interval_cases d <;> decide

/-- Digit characters decode to their value. -/
theorem charToDigit_digitToChar (d : Nat) (h : d < 10) :
    charToDigit (digitToChar d) = d := by
  interval_cases d <;> decide

/-- Only zero prints as the zero digit. -/
theorem digitToChar_eq_zero_iff (d : Nat) (h : d < 10) :
    digitToChar d = '0' ↔ d = 0 := by
  interval_cases d <;> simp [digitToChar]

/-- A digit character is none of the value-dispatch characters and is not
whitespace. -/
theorem isDigitChar_facts (c : Char) (h : isDigitChar c = true) :
    c ≠ '"' ∧ c ≠ '\x7b' ∧ c ≠ '[' ∧ c ≠ 't' ∧ c ≠ 'f' ∧ c ≠ 'n' ∧ c ≠ '-' ∧
      isJsonWs c = false := by
  simp only [isDigitChar, Bool.and_eq_true, decide_eq_true_eq] at h
  refine ⟨char_ne_of_toNat_ne _ _ (by have hv : ('"').toNat = 34 := rfl; omega),
    char_ne_of_toNat_ne _ _ (by have hv : ('\x7b').toNat = 123 := rfl; omega),
    char_ne_of_toNat_ne _ _ (by have hv : ('[').toNat = 91 := rfl; omega),
    char_ne_of_toNat_ne _ _ (by have hv : ('t').toNat = 116 := rfl; omega),
    char_ne_of_toNat_ne _ _ (by have hv : ('f').toNat = 102 := rfl; omega),
    char_ne_of_toNat_ne _ _ (by have hv : ('n').toNat = 110 := rfl; omega),
    char_ne_of_toNat_ne _ _ (by have hv : ('-').toNat = 45 := rfl; omega), ?_⟩
  simp only [isJsonWs, Bool.or_eq_false_iff, decide_eq_false_iff_not]
  omega

/-- Accumulator semantics of the digit-run parser on a printed digit block
followed by a non-digit boundary. -/
theorem parseDigitsAux_spec (B : List Nat) :
    ∀ (acc : Nat) (rest : List Char), (∀ d ∈ B, d < 10) → noDigitHead rest →
      parseDigitsAux ((B.map digitToChar) ++ rest) acc =
        (acc * 10 ^ B.length + Nat.ofDigits 10 B.reverse, rest) := by
  induction B with
  | nil =>
    intro acc rest _ hrest
    cases rest with
    | nil => simp [parseDigitsAux, Nat.ofDigits]
    | cons c r =>
      have hc : isDigitChar c = false := hrest c rfl
      simp [parseDigitsAux, hc, Nat.ofDigits]
  | cons d T ih =>
    intro acc rest hB hrest
    have hd : d < 10 := hB d (List.mem_cons_self d T)
    have hT : ∀ x ∈ T, x < 10 := fun x hx => hB x (List.mem_cons_of_mem d hx)
    simp only [List.map_cons, List.cons_append, parseDigitsAux]
    rw [isDigitChar_digitToChar d hd, if_pos rfl, charToDigit_digitToChar d hd]
    simp only [List.append_eq]
    rw [ih (acc * 10 + d) rest hT hrest]
    have happ : Nat.ofDigits 10 (T.reverse ++ [d]) =
        Nat.ofDigits 10 T.reverse + 10 ^ T.reverse.length * Nat.ofDigits 10 [d] :=
      Nat.ofDigits_append
    simp only [List.reverse_cons, happ, List.length_reverse, List.length_cons]
    have hsingle : Nat.ofDigits 10 [d] = d := by
      simp [Nat.ofDigits]
    rw [hsingle]
    ring_nf

/-- The printed decimal of a natural parses back to it. -/
theorem parseNatToken_printNat (n : Nat) (rest : List Char)
    (hrest : noDigitHead rest) :
    parseNatToken (printNat n ++ rest) = some (n, rest) := by
  by_cases hn : n = 0
  · subst hn
    simp [printNat, parseNatToken]
  · have hdig : Nat.digits 10 n ≠ [] := Nat.digits_ne_nil_iff_ne_zero.mpr hn
    have hrevne : (Nat.digits 10 n).reverse ≠ [] := by
      simpa using hdig
    obtain ⟨d, B, hrev⟩ := List.exists_cons_of_ne_nil hrevne
    have hL : Nat.digits 10 n = B.reverse ++ [d] := by
      have := congrArg List.reverse hrev
      rw [List.reverse_reverse] at this
      simpa using this
    have hdmem : d ∈ Nat.digits 10 n := by
      rw [hL]
      simp
    have hd10 : d < 10 := Nat.digits_lt_base (by norm_num) hdmem
    have hBmem : ∀ x ∈ B, x < 10 := by
      intro x hx
      have hmem : x ∈ Nat.digits 10 n := by
        rw [hL]
        simp only [List.mem_append, List.mem_reverse]
        exact Or.inl hx
      exact Nat.digits_lt_base (by norm_num) hmem
    have hdne : d ≠ 0 := by
      have hlast := Nat.getLast_digit_ne_zero 10 hn
      have : (Nat.digits 10 n).getLast hdig = d := by
        have hco : Nat.digits 10 n = B.reverse ++ [d] := hL
        simp [hco]
      rw [← this]
      exact hlast
    have hprint : printNat n = digitToChar d :: B.map digitToChar := by
      rw [printNat, if_neg hn, hrev]
      simp
    rw [hprint]
    simp only [List.cons_append, parseNatToken]
    rw [if_neg (by rw [digitToChar_eq_zero_iff d hd10]; exact hdne),
      if_pos (isDigitChar_digitToChar d hd10), charToDigit_digitToChar d hd10]
    rw [parseDigitsAux_spec B d rest hBmem hrest]
    have hn' : d * 10 ^ B.length + Nat.ofDigits 10 B.reverse = n := by
      have hofd : Nat.ofDigits 10 (Nat.digits 10 n) = n := Nat.ofDigits_digits 10 n
      rw [hL] at hofd
      have happ : Nat.ofDigits 10 (B.reverse ++ [d]) =
          Nat.ofDigits 10 B.reverse + 10 ^ B.reverse.length * Nat.ofDigits 10 [d] :=
        Nat.ofDigits_append
      rw [happ] at hofd
      have hsingle : Nat.ofDigits 10 [d] = d := by simp [Nat.ofDigits]
      rw [hsingle, List.length_reverse] at hofd
      rw [Nat.mul_comm d (10 ^ B.length)]
      omega
    rw [hn']

/-- Hex digit characters decode to their value. -/
theorem hexDigitVal_hexDigitChar (d : Nat) (h : d < 16) :
    hexDigitVal (hexDigitChar d) = some d := by
  interval_cases d <;> decide

/-- The escaped form of one character parses back to that character in front
of whatever the remaining body parses to. -/
theorem parseStringBody_escapeChar (c : Char) (tl rest : List Char) (s : List Char)
    (htl : parseStringBody tl = some (s, rest)) :
    parseStringBody (escapeChar c ++ tl) = some (c :: s, rest) := by
  by_cases h1 : c = '\\'
  · subst h1
    simp [escapeChar, parseStringBody, unescapeChar, htl]
  by_cases h2 : c = '"'
  · subst h2
    simp [escapeChar, parseStringBody, unescapeChar, htl]
  by_cases h3 : c = '\x08'
  · subst h3
    simp [escapeChar, parseStringBody, unescapeChar, htl]
  by_cases h4 : c = '\t'
  · subst h4
    simp [escapeChar, parseStringBody, unescapeChar, htl]
  by_cases h5 : c = '\n'
  · subst h5
    simp [escapeChar, parseStringBody, unescapeChar, htl]
  by_cases h6 : c = '\x0c'
  · subst h6
    simp [escapeChar, parseStringBody, unescapeChar, htl]
  by_cases h7 : c = '\r'
  · subst h7
    simp [escapeChar, parseStringBody, unescapeChar, htl]
  by_cases h8 : c.toNat < 32
  · rw [escapeChar, if_neg h1, if_neg h2, if_neg h3, if_neg h4, if_neg h5,
      if_neg h6, if_neg h7, if_pos h8]
    have hhi : c.toNat / 16 < 16 := by omega
    have hlo : c.toNat % 16 < 16 := by omega
    simp only [List.cons_append, List.nil_append, parseStringBody, if_true]
    rw [hexDigitVal_hexDigitChar _ hhi, hexDigitVal_hexDigitChar _ hlo]
    have hv0 : hexDigitVal '0' = some 0 := by decide
    rw [hv0]
    simp only [Option.some_bind, htl, Option.map_some]
    have hchar : Char.ofNat (4096 * 0 + 256 * 0 + 16 * (c.toNat / 16) + c.toNat % 16) = c := by
      have hmod : 4096 * 0 + 256 * 0 + 16 * (c.toNat / 16) + c.toNat % 16 = c.toNat := by
        have := Nat.div_add_mod c.toNat 16
        omega
      rw [hmod]
      exact Char.ofNat_toNat c
    rw [hchar, if_neg (by decide)]
    simp [htl]
  · rw [escapeChar, if_neg h1, if_neg h2, if_neg h3, if_neg h4, if_neg h5,
      if_neg h6, if_neg h7, if_neg h8]
    simp only [List.cons_append, List.nil_append]
    rw [parseStringBody.eq_def]
    simp [h1, h2, h8, htl]

/-- An escaped string body followed by the closing quote parses back to the
original string. -/
theorem parseStringBody_escapeString (s : List Char) :
    ∀ rest, parseStringBody (escapeString s ++ '"' :: rest) = some (s, rest) := by
  induction s with
  | nil =>
    intro rest
    simp only [escapeString, List.nil_append]
    rw [parseStringBody.eq_def]
    simp
  | cons c t ih =>
    intro rest
    rw [escapeString, List.append_assoc]
    exact parseStringBody_escapeChar c _ rest t (ih rest)

/-- A printed natural starts with a digit character. -/
theorem printNat_shape (n : Nat) :
    ∃ c cs, printNat n = c :: cs ∧ isDigitChar c = true := by
  by_cases hn : n = 0
  · subst hn
    exact ⟨'0', [], rfl, by decide⟩
  · have hdig : Nat.digits 10 n ≠ [] := Nat.digits_ne_nil_iff_ne_zero.mpr hn
    have hrevne : (Nat.digits 10 n).reverse ≠ [] := by simpa using hdig
    obtain ⟨d, B, hrev⟩ := List.exists_cons_of_ne_nil hrevne
    have hdmem : d ∈ Nat.digits 10 n := by
      have : d ∈ (Nat.digits 10 n).reverse := by rw [hrev]; simp
      simpa using this
    have hd10 : d < 10 := Nat.digits_lt_base (by norm_num) hdmem
    refine ⟨digitToChar d, B.map digitToChar, ?_, isDigitChar_digitToChar d hd10⟩
    rw [printNat, if_neg hn, hrev]
    simp

/-- A digit character is not a closing bracket. -/
theorem isDigitChar_ne_rbracket (c : Char) (h : isDigitChar c = true) :
    c ≠ ']' := by
  simp only [isDigitChar, Bool.and_eq_true, decide_eq_true_eq] at h
  exact char_ne_of_toNat_ne _ _ (by have hv : (']').toNat = 93 := rfl; omega)

/-- Every printed JSON value starts with a non-whitespace character that is
not a closing bracket. -/
theorem printJson_head (x : Json) :
    ∃ c cs, printJson x = c :: cs ∧ isJsonWs c = false ∧ c ≠ ']' := by
  cases x with
  | null => exact ⟨'n', _, rfl, by decide, by decide⟩
  | bool b => cases b with
    | true => exact ⟨'t', _, rfl, by decide, by decide⟩
    | false => exact ⟨'f', _, rfl, by decide, by decide⟩
  | num k =>
    cases k with
    | ofNat m =>
      obtain ⟨c, cs, heq, hdig⟩ := printNat_shape m
      refine ⟨c, cs, ?_, (isDigitChar_facts c hdig).2.2.2.2.2.2.2,
        isDigitChar_ne_rbracket c hdig⟩
      simpa [printJson, printInt] using heq
    | negSucc m =>
      exact ⟨'-', printNat (m + 1), rfl, by decide, by decide⟩
  | str s => exact ⟨'"', _, rfl, by decide, by decide⟩
  | arr items => exact ⟨'[', _, rfl, by decide, by decide⟩
  | obj fields => exact ⟨'\x7b', _, rfl, by decide, by decide⟩

/-- The printed tail of an array (followed by the closing bracket) never
starts with a digit. -/
theorem noDigitHead_itemsTail (tl : JsonItems) (rest : List Char) :
    noDigitHead (printItemsTail tl ++ ']' :: rest) := by
  cases tl with
  | nil =>
    intro c hc
    simp only [printItemsTail, List.nil_append, List.head?_cons,
      Option.some.injEq] at hc
    subst hc
    decide
  | cons hd tl2 =>
    intro c hc
    simp only [printItemsTail, List.cons_append, List.head?_cons,
      Option.some.injEq] at hc
    subst hc
    decide

/-- The printed tail of an object (followed by the closing brace) never
starts with a digit. -/
theorem noDigitHead_fieldsTail (tl : JsonFields) (rest : List Char) :
    noDigitHead (printFieldsTail tl ++ '\x7d' :: rest) := by
  cases tl with
  | nil =>
    intro c hc
    simp only [printFieldsTail, List.nil_append, List.head?_cons,
      Option.some.injEq] at hc
    subst hc
    decide
  | fcons k v tl2 =>
    intro c hc
    simp only [printFieldsTail, List.cons_append, List.head?_cons,
      Option.some.injEq] at hc
    subst hc
    decide

mutual
/-- A value's parser-depth measure is bounded by its printed length. -/
theorem sizeJson_le_print : ∀ x : Json, sizeJson x ≤ (printJson x).length
  | .null => by simp [sizeJson, printJson]
  | .bool b => by cases b <;> simp [sizeJson, printJson]
  | .num n => by simp [sizeJson]
  | .str s => by simp [sizeJson]
  | .arr items => by
    cases items with
    | nil => simp [sizeJson, sizeItems, printJson, printItems]
    | cons hd tl =>
      have h1 := sizeJson_le_print hd
      have h2 := sizeItems_le_printTail tl
      simp only [sizeJson, sizeItems, printJson, printItems, List.length_cons,
        List.length_append, List.length_singleton]
      omega
  | .obj fields => by
    cases fields with
    | nil => simp [sizeJson, sizeFields, printJson, printFields]
    | fcons k v tl =>
      have h1 := sizeJson_le_print v
      have h2 := sizeFields_le_printTail tl
      simp only [sizeJson, sizeFields, printJson, printFields, List.length_cons,
        List.length_append, List.length_singleton]
      omega
/-- Array-tail measure bound. -/
theorem sizeItems_le_printTail : ∀ l : JsonItems,
    sizeItems l ≤ (printItemsTail l).length
  | .nil => by simp [sizeItems, printItemsTail]
  | .cons hd tl => by
    have h1 := sizeJson_le_print hd
    have h2 := sizeItems_le_printTail tl
    simp only [sizeItems, printItemsTail, List.length_cons, List.length_append]
    omega
/-- Object-tail measure bound. -/
theorem sizeFields_le_printTail : ∀ l : JsonFields,
    sizeFields l ≤ (printFieldsTail l).length
  | .nil => by simp [sizeFields, printFieldsTail]
  | .fcons k v tl => by
    have h1 := sizeJson_le_print v
    have h2 := sizeFields_le_printTail tl
    simp only [sizeFields, printFieldsTail, List.length_cons, List.length_append]
    omega
end

/-- Parsing inverts printing: with enough fuel, every printed value (followed
by a non-digit boundary) parses back to itself, and likewise for printed
array and object bodies. -/
theorem parse_print_roundtrip : ∀ fuel : Nat,
    (∀ (x : Json) (rest : List Char), sizeJson x < fuel → noDigitHead rest →
      parseVal fuel (printJson x ++ rest) = some (x, rest)) ∧
    (∀ (l : JsonItems) (rest : List Char), sizeItems l < fuel →
      parseItems fuel (printItems l ++ ']' :: rest) = some (l, rest)) ∧
    (∀ (l : JsonItems) (rest : List Char), sizeItems l < fuel →
      parseItemsTail fuel (printItemsTail l ++ ']' :: rest) = some (l, rest)) ∧
    (∀ (l : JsonFields) (rest : List Char), sizeFields l < fuel →
      parseFields fuel (printFields l ++ '\x7d' :: rest) = some (l, rest)) ∧
    (∀ (l : JsonFields) (rest : List Char), sizeFields l < fuel →
      parseFieldsTail fuel (printFieldsTail l ++ '\x7d' :: rest) = some (l, rest)) := by
  intro fuel
  induction fuel with
  | zero =>
    exact ⟨fun x rest h _ => absurd h (by omega),
      fun l rest h => absurd h (by omega),
      fun l rest h => absurd h (by omega),
      fun l rest h => absurd h (by omega),
      fun l rest h => absurd h (by omega)⟩
  | succ f ih =>
    obtain ⟨ihv, ihi, ihit, ihf, ihft⟩ := ih
    refine ⟨?_, ?_, ?_, ?_, ?_⟩
    · intro x rest hsz hrest
      cases x with
      | null =>
        show parseVal (f + 1) ('n' :: 'u' :: 'l' :: 'l' :: rest) =
          some (Json.null, rest)
        rw [parseVal.eq_def]
        dsimp only
        rw [skipWs_cons _ _ (by decide)]
        dsimp only
        simp
      | bool b =>
        cases b with
        | true =>
          show parseVal (f + 1) ('t' :: 'r' :: 'u' :: 'e' :: rest) =
            some (Json.bool true, rest)
          rw [parseVal.eq_def]
          dsimp only
          rw [skipWs_cons _ _ (by decide)]
          dsimp only
          simp
        | false =>
          show parseVal (f + 1) ('f' :: 'a' :: 'l' :: 's' :: 'e' :: rest) =
            some (Json.bool false, rest)
          rw [parseVal.eq_def]
          dsimp only
          rw [skipWs_cons _ _ (by decide)]
          dsimp only
          simp
      | str s =>
        have hshape : printJson (.str s) ++ rest =
            '"' :: (escapeString s ++ '"' :: rest) := by
          simp [printJson, printString]
        rw [hshape, parseVal.eq_def]
        dsimp only
        rw [skipWs_cons _ _ (by decide)]
        dsimp only
        simp [parseStringBody_escapeString s rest]
      | num k =>
        cases k with
        | ofNat m =>
          obtain ⟨c, cs, heq, hdig⟩ := printNat_shape m
          obtain ⟨hne1, hne2, hne3, hne4, hne5, hne6, hne7, hws⟩ :=
            isDigitChar_facts c hdig
          have hshape : printJson (.num (Int.ofNat m)) ++ rest = c :: (cs ++ rest) := by
            simp [printJson, printInt, heq]
          rw [hshape, parseVal.eq_def]
          dsimp only
          rw [skipWs_cons _ _ hws]
          dsimp only
          rw [if_neg hne1, if_neg hne2, if_neg hne3, if_neg hne4, if_neg hne5,
            if_neg hne6, if_neg hne7]
          have hback : c :: (cs ++ rest) = printNat m ++ rest := by
            rw [heq]
            rfl
          rw [hback, parseNatToken_printNat m rest hrest]
          rfl
        | negSucc m =>
          have hshape : printJson (.num (Int.negSucc m)) ++ rest =
              '-' :: (printNat (m + 1) ++ rest) := by
            simp [printJson, printInt]
          rw [hshape, parseVal.eq_def]
          dsimp only
          rw [skipWs_cons _ _ (by decide)]
          dsimp only
          rw [if_neg (by decide), if_neg (by decide), if_neg (by decide),
            if_neg (by decide), if_neg (by decide), if_neg (by decide),
            if_pos rfl]
          rw [parseNatToken_printNat (m + 1) rest hrest]
          have hneg : (-(((m + 1 : Nat) : Int))) = Int.negSucc m := by
            rw [Int.negSucc_eq]
            push_cast
            ring
          simp only [Option.map_some']
          rw [hneg]
      | arr items =>
        have hshape : printJson (.arr items) ++ rest =
            '[' :: (printItems items ++ ']' :: rest) := by
          simp [printJson]
        rw [hshape, parseVal.eq_def]
        dsimp only
        rw [skipWs_cons _ _ (by decide)]
        dsimp only
        rw [if_neg (by decide), if_neg (by decide), if_pos rfl]
        rw [ihi items rest (by simp [sizeJson] at hsz; omega)]
        rfl
      | obj fields =>
        have hshape : printJson (.obj fields) ++ rest =
            '\x7b' :: (printFields fields ++ '\x7d' :: rest) := by
          simp [printJson]
        rw [hshape, parseVal.eq_def]
        dsimp only
        rw [skipWs_cons _ _ (by decide)]
        dsimp only
        rw [if_neg (by decide), if_pos rfl]
        rw [ihf fields rest (by simp [sizeJson] at hsz; omega)]
        rfl
    · intro l rest hsz
      cases l with
      | nil =>
        show parseItems (f + 1) (']' :: rest) = some (JsonItems.nil, rest)
        rw [parseItems.eq_def]
        dsimp only
        rw [skipWs_cons _ _ (by decide)]
        dsimp only
        simp
      | cons hd tl =>
        obtain ⟨c, cs, heq, hws, hne⟩ := printJson_head hd
        have hshape : printItems (.cons hd tl) ++ ']' :: rest =
            c :: (cs ++ (printItemsTail tl ++ ']' :: rest)) := by
          simp [printItems, heq]
        rw [hshape, parseItems.eq_def]
        dsimp only
        rw [skipWs_cons _ _ hws]
        dsimp only
        rw [if_neg hne]
        have hback : c :: (cs ++ (printItemsTail tl ++ ']' :: rest)) =
            printJson hd ++ (printItemsTail tl ++ ']' :: rest) := by
          rw [heq]
          rfl
        rw [hback]
        rw [ihv hd (printItemsTail tl ++ ']' :: rest)
          (by simp [sizeItems] at hsz; omega) (noDigitHead_itemsTail tl rest)]
        rw [Option.some_bind]
        rw [ihit tl rest (by simp [sizeItems] at hsz; omega)]
        rfl
    · intro l rest hsz
      cases l with
      | nil =>
        show parseItemsTail (f + 1) (']' :: rest) = some (JsonItems.nil, rest)
        rw [parseItemsTail.eq_def]
        dsimp only
        rw [skipWs_cons _ _ (by decide)]
        dsimp only
        simp
      | cons hd tl =>
        have hshape : printItemsTail (.cons hd tl) ++ ']' :: rest =
            ',' :: (printJson hd ++ (printItemsTail tl ++ ']' :: rest)) := by
          simp [printItemsTail]
        rw [hshape, parseItemsTail.eq_def]
        dsimp only
        rw [skipWs_cons _ _ (by decide)]
        dsimp only
        rw [if_neg (by decide), if_pos rfl]
        rw [ihv hd (printItemsTail tl ++ ']' :: rest)
          (by simp [sizeItems] at hsz; omega) (noDigitHead_itemsTail tl rest)]
        rw [Option.some_bind]
        rw [ihit tl rest (by simp [sizeItems] at hsz; omega)]
        rfl
    · intro l rest hsz
      cases l with
      | nil =>
        show parseFields (f + 1) ('\x7d' :: rest) = some (JsonFields.nil, rest)
        rw [parseFields.eq_def]
        dsimp only
        rw [skipWs_cons _ _ (by decide)]
        dsimp only
        simp
      | fcons k v tl =>
        have hshape : printFields (.fcons k v tl) ++ '\x7d' :: rest =
            '"' :: (escapeString k ++
              '"' :: (':' :: (printJson v ++ (printFieldsTail tl ++ '\x7d' :: rest)))) := by
          simp [printFields, printString]
        rw [hshape, parseFields.eq_def]
        dsimp only
        rw [skipWs_cons _ _ (by decide)]
        dsimp only
        rw [if_neg (by decide), if_pos rfl]
        rw [parseStringBody_escapeString k
          (':' :: (printJson v ++ (printFieldsTail tl ++ '\x7d' :: rest)))]
        rw [Option.some_bind]
        rw [skipWs_cons _ _ (by decide)]
        dsimp only
        rw [if_pos rfl]
        rw [ihv v (printFieldsTail tl ++ '\x7d' :: rest)
          (by simp [sizeFields] at hsz; omega) (noDigitHead_fieldsTail tl rest)]
        rw [Option.some_bind]
        rw [ihft tl rest (by simp [sizeFields] at hsz; omega)]
        rfl
    · intro l rest hsz
      cases l with
      | nil =>
        show parseFieldsTail (f + 1) ('\x7d' :: rest) = some (JsonFields.nil, rest)
        rw [parseFieldsTail.eq_def]
        dsimp only
        rw [skipWs_cons _ _ (by decide)]
        dsimp only
        simp
      | fcons k v tl =>
        have hshape : printFieldsTail (.fcons k v tl) ++ '\x7d' :: rest =
            ',' :: ('"' :: (escapeString k ++
              '"' :: (':' :: (printJson v ++ (printFieldsTail tl ++ '\x7d' :: rest))))) := by
          simp [printFieldsTail, printString]
        rw [hshape, parseFieldsTail.eq_def]
        dsimp only
        rw [skipWs_cons _ _ (by decide)]
        dsimp only
        rw [if_neg (by decide), if_pos rfl]
        rw [skipWs_cons _ _ (by decide)]
        dsimp only
        rw [if_pos rfl]
        rw [parseStringBody_escapeString k
          (':' :: (printJson v ++ (printFieldsTail tl ++ '\x7d' :: rest)))]
        rw [Option.some_bind]
        rw [skipWs_cons _ _ (by decide)]
        dsimp only
        rw [if_pos rfl]
        rw [ihv v (printFieldsTail tl ++ '\x7d' :: rest)
          (by simp [sizeFields] at hsz; omega) (noDigitHead_fieldsTail tl rest)]
        rw [Option.some_bind]
        rw [ihft tl rest (by simp [sizeFields] at hsz; omega)]
        rfl

/-- Top-level `json.loads` inverts the compact `json.dumps` printer. -/
theorem parseJson_printJson (x : Json) : parseJson (printJson x) = some x := by
  have h := (parse_print_roundtrip ((printJson x).length + 1)).1 x []
    (Nat.lt_succ_of_le (sizeJson_le_print x)) (by intro c hc; simp at hc)
  rw [List.append_nil] at h
  simp [parseJson, h, skipWs]

/-- C7: for every JSON-representable payload,
`deserialize_payload (serialize_payload x) = x`, given that the transport
layer (gzip over UTF-8 bytes) is lossless. -/
theorem c7_serialize_roundtrip {κ : Type} (enc : List Char → κ)
    (dec : κ → Option (List Char)) (hinv : ∀ s, dec (enc s) = some s)
    (payload : Json) :
    deserialize_payload dec (serialize_payload enc payload) = some payload := by
  unfold deserialize_payload serialize_payload
  rw [hinv, Option.some_bind, parseJson_printJson]

/-- C7 witness: the round trip at the identity transport on a concrete
object payload. -/
theorem c7_witness :
    (∀ s : List Char, (some s : Option (List Char)) = some s) ∧
    deserialize_payload (fun s => some s) (serialize_payload (fun s => s)
      (Json.obj (.fcons "query".toList (.str "mouse".toList)
        (.fcons "products_k".toList (.num 5) .nil)))) =
      some (Json.obj (.fcons "query".toList (.str "mouse".toList)
        (.fcons "products_k".toList (.num 5) .nil))) :=
  ⟨fun _ => rfl, c7_serialize_roundtrip (fun s => s) (fun s => some s)
    (fun _ => rfl) _⟩
